import Mathlib

/-!
# SimpleEQ: a shallow embedding of `Source/PluginProcessor.h` and `Source/PluginProcessor.cpp`

The development follows the two source files.  Samples (`float`) that are only
moved around are an arbitrary type `α`; frequencies and sample rates, which the
code passes on without arithmetic, are rationals.  Filter coefficients are an
arbitrary type `C` and the delay registers of one IIR section an arbitrary
type `S`: the code of this repository never computes with them.
-/

namespace SimpleEQ

/-! ## Cut-filter chains (`PluginProcessor.h`, lines 146-232) -/

/-- The `enum Slope` of the header: 12/24/36/48 dB per octave. -/
inductive Slope where
  | Slope_12
  | Slope_24
  | Slope_36
  | Slope_48
  deriving DecidableEq, Repr

/-- The integer value of a `Slope` enumerator (`Slope_12 = 0`, ..., `Slope_48 = 3`). -/
def Slope.toNat : Slope → Nat
  | Slope_12 => 0
  | Slope_24 => 1
  | Slope_36 => 2
  | Slope_48 => 3

/-- One `juce::dsp::IIR::Filter<float>`: the coefficients it points to and its
delay registers. -/
structure Filter (C S : Type) where
  coefficients : C
  state : S
  deriving DecidableEq, Repr

/-- The type `CutFilter = juce::dsp::ProcessorChain<Filter, Filter, Filter, Filter>`:
four sections and the chain's array of four bypass flags. -/
structure CutFilter (C S : Type) where
  f0 : Filter C S
  f1 : Filter C S
  f2 : Filter C S
  f3 : Filter C S
  bypassed0 : Bool
  bypassed1 : Bool
  bypassed2 : Bool
  bypassed3 : Bool
  deriving DecidableEq, Repr

variable {C S : Type}

/-- The call `chain.get<Index>()`. -/
def CutFilter.get (chain : CutFilter C S) : Fin 4 → Filter C S
  | 0 => chain.f0
  | 1 => chain.f1
  | 2 => chain.f2
  | 3 => chain.f3

/-- The call `chain.isBypassed<Index>()`. -/
def CutFilter.isBypassed (chain : CutFilter C S) : Fin 4 → Bool
  | 0 => chain.bypassed0
  | 1 => chain.bypassed1
  | 2 => chain.bypassed2
  | 3 => chain.bypassed3

/-- The call `chain.setBypassed<Index>(b)`. -/
def CutFilter.setBypassed (chain : CutFilter C S) (i : Fin 4) (b : Bool) : CutFilter C S :=
  match i with
  | 0 => { chain with bypassed0 := b }
  | 1 => { chain with bypassed1 := b }
  | 2 => { chain with bypassed2 := b }
  | 3 => { chain with bypassed3 := b }

/-- The function `updateCoefficients(old, replacements)`, that is `*old = *replacements`,
applied to the coefficients of section `i` of a cut chain. -/
def CutFilter.updateCoefficients (chain : CutFilter C S) (i : Fin 4) (replacements : C) :
    CutFilter C S :=
  match i with
  | 0 => { chain with f0 := { chain.f0 with coefficients := replacements } }
  | 1 => { chain with f1 := { chain.f1 with coefficients := replacements } }
  | 2 => { chain with f2 := { chain.f2 with coefficients := replacements } }
  | 3 => { chain with f3 := { chain.f3 with coefficients := replacements } }

/-- The template `update<Index>(chain, coefficients)`: store `coefficients[Index]` in
section `Index` and clear its bypass flag.  The coefficient sequence is a list; an
index outside it has no element to copy from, and the result is `none`. -/
def update (i : Fin 4) (chain : CutFilter C S) (coefficients : List C) :
    Option (CutFilter C S) :=
  match coefficients[i.val]? with
  | none => none
  | some c => some ((chain.updateCoefficients i c).setBypassed i false)

/-- The template `updateCutFilter(chain, coefficients, slope)`: all four sections are
bypassed, then the `switch` without `break` runs `update<3>` .. `update<0>` from the
case of `slope` downwards. -/
def updateCutFilter (chain : CutFilter C S) (coefficients : List C) (slope : Slope) :
    Option (CutFilter C S) :=
  let chain := chain.setBypassed 0 true
  let chain := chain.setBypassed 1 true
  let chain := chain.setBypassed 2 true
  let chain := chain.setBypassed 3 true
  match slope with
  | Slope.Slope_48 =>
      (update 3 chain coefficients).bind fun chain =>
      (update 2 chain coefficients).bind fun chain =>
      (update 1 chain coefficients).bind fun chain =>
      update 0 chain coefficients
  | Slope.Slope_36 =>
      (update 2 chain coefficients).bind fun chain =>
      (update 1 chain coefficients).bind fun chain =>
      update 0 chain coefficients
  | Slope.Slope_24 =>
      (update 1 chain coefficients).bind fun chain =>
      update 0 chain coefficients
  | Slope.Slope_12 =>
      update 0 chain coefficients

/-- Number of sections of a cut chain whose bypass flag is clear. -/
def CutFilter.numActive (chain : CutFilter C S) : Nat :=
  ((List.finRange 4).filter fun i => !chain.isBypassed i).length

/-- Number of sections of a cut chain whose bypass flag is set. -/
def CutFilter.numBypassed (chain : CutFilter C S) : Nat :=
  ((List.finRange 4).filter fun i => chain.isBypassed i).length

/-! ## The capture FIFO (`PluginProcessor.h`, lines 13-74)

`Fifo<T>` keeps its index bookkeeping in a `juce::AbstractFifo` of the JUCE library
(`juce_core/containers/juce_AbstractFifo.cpp`).  The class is embedded here as the
library defines it: two cursors `validStart` and `validEnd` into a ring of
`bufferSize` slots, of which at most `bufferSize - 1` are in use at a time, since
`validStart = validEnd` stands for the empty ring.  All quantities are non-negative
`int`s; the only subtraction that can go below zero, `freeSpace - 1`, is followed by
the test `numToWrite <= 0`, on which truncated subtraction agrees. -/

/-- The state of a `juce::AbstractFifo`. -/
structure AbstractFifo where
  bufferSize : Nat
  validStart : Nat
  validEnd : Nat
  deriving DecidableEq, Repr

/-- The four `int`s that `prepareToWrite` and `prepareToRead` hand back, kept by a
`ScopedWrite` or `ScopedRead`. -/
structure ScopedReadWrite where
  startIndex1 : Nat
  blockSize1 : Nat
  startIndex2 : Nat
  blockSize2 : Nat
  deriving DecidableEq, Repr

/-- The constructor `AbstractFifo (int capacity)`: both cursors start at 0. -/
def AbstractFifo.init (capacity : Nat) : AbstractFifo :=
  { bufferSize := capacity, validStart := 0, validEnd := 0 }

/-- The method `AbstractFifo::getNumReady`:
`ve >= vs ? (ve - vs) : (bufferSize - (vs - ve))`. -/
def AbstractFifo.getNumReady (f : AbstractFifo) : Nat :=
  if f.validEnd ≥ f.validStart then f.validEnd - f.validStart
  else f.bufferSize - (f.validStart - f.validEnd)

/-- The method `AbstractFifo::prepareToWrite (numToWrite, ...)`: the free space is
`ve >= vs ? (bufferSize - (ve - vs)) : (vs - ve)` and at most `freeSpace - 1` items
may be written. -/
def AbstractFifo.prepareToWrite (f : AbstractFifo) (numToWrite : Nat) : ScopedReadWrite :=
  let vs := f.validStart
  let ve := f.validEnd
  let freeSpace := if ve ≥ vs then f.bufferSize - (ve - vs) else vs - ve
  let numToWrite := min numToWrite (freeSpace - 1)
  if numToWrite ≤ 0 then
    { startIndex1 := 0, blockSize1 := 0, startIndex2 := 0, blockSize2 := 0 }
  else
    let blockSize1 := min (f.bufferSize - ve) numToWrite
    let numToWrite := numToWrite - blockSize1
    { startIndex1 := ve, blockSize1 := blockSize1, startIndex2 := 0,
      blockSize2 := if numToWrite ≤ 0 then 0 else min numToWrite vs }

/-- The method `AbstractFifo::finishedWrite (numWritten)`: advance `validEnd`, wrapping
at `bufferSize`. -/
def AbstractFifo.finishedWrite (f : AbstractFifo) (numWritten : Nat) : AbstractFifo :=
  let newEnd := f.validEnd + numWritten
  let newEnd := if newEnd ≥ f.bufferSize then newEnd - f.bufferSize else newEnd
  { f with validEnd := newEnd }

/-- The method `AbstractFifo::prepareToRead (numWanted, ...)`: at most `getNumReady`
items may be read. -/
def AbstractFifo.prepareToRead (f : AbstractFifo) (numWanted : Nat) : ScopedReadWrite :=
  let vs := f.validStart
  let ve := f.validEnd
  let numReady := if ve ≥ vs then ve - vs else f.bufferSize - (vs - ve)
  let numWanted := min numWanted numReady
  if numWanted ≤ 0 then
    { startIndex1 := 0, blockSize1 := 0, startIndex2 := 0, blockSize2 := 0 }
  else
    let blockSize1 := min (f.bufferSize - vs) numWanted
    let numWanted := numWanted - blockSize1
    { startIndex1 := vs, blockSize1 := blockSize1, startIndex2 := 0,
      blockSize2 := if numWanted ≤ 0 then 0 else min numWanted ve }

/-- The method `AbstractFifo::finishedRead (numRead)`: advance `validStart`, wrapping
at `bufferSize`. -/
def AbstractFifo.finishedRead (f : AbstractFifo) (numRead : Nat) : AbstractFifo :=
  let newStart := f.validStart + numRead
  let newStart := if newStart ≥ f.bufferSize then newStart - f.bufferSize else newStart
  { f with validStart := newStart }

/-- The constant `Fifo::Capacity`. -/
def Capacity : Nat := 30

/-- The template `Fifo<T>`: `std::array<T, Capacity> buffers` and
`juce::AbstractFifo fifo {Capacity}`. -/
structure Fifo (T : Type) where
  buffers : List T
  fifo : AbstractFifo
  deriving DecidableEq, Repr

variable {T : Type}

/-- A newly constructed `Fifo<T>`: `Capacity` default-constructed slots `t0` and an
`AbstractFifo` of size `Capacity`. -/
def Fifo.init (t0 : T) : Fifo T :=
  { buffers := List.replicate Capacity t0, fifo := AbstractFifo.init Capacity }

/-- The method `Fifo::push`.  `fifo.write(1)` is `prepareToWrite(1)`, and the
`ScopedWrite` calls `finishedWrite (blockSize1 + blockSize2)` when it goes out of scope
at either `return`. -/
def Fifo.push (f : Fifo T) (t : T) : Fifo T × Bool :=
  let write := f.fifo.prepareToWrite 1
  let fifo := f.fifo.finishedWrite (write.blockSize1 + write.blockSize2)
  if write.blockSize1 > 0 then
    ({ buffers := f.buffers.set write.startIndex1 t, fifo := fifo }, true)
  else
    ({ f with fifo := fifo }, false)

/-- The method `Fifo::pull (T& t)`: the new queue, the value of `t` after the call and
the returned flag.  `fifo.read(1)` is `prepareToRead(1)`, and the `ScopedRead` calls
`finishedRead (blockSize1 + blockSize2)` when it goes out of scope.  The slot read is
always one of the `Capacity` slots (`Fifo.Inv` below). -/
def Fifo.pull (f : Fifo T) (t : T) : Fifo T × T × Bool :=
  let read := f.fifo.prepareToRead 1
  let fifo := f.fifo.finishedRead (read.blockSize1 + read.blockSize2)
  if read.blockSize1 > 0 then
    ({ f with fifo := fifo }, (f.buffers[read.startIndex1]?).getD t, true)
  else
    ({ f with fifo := fifo }, t, false)

/-- The method `Fifo::getNumAvailableForReading`. -/
def Fifo.getNumAvailableForReading (f : Fifo T) : Nat :=
  f.fifo.getNumReady

/-- Push the items of a list one after the other, collecting the returned flags. -/
def Fifo.pushAll (f : Fifo T) : List T → Fifo T × List Bool
  | [] => (f, [])
  | t :: ts =>
    let r := f.push t
    let rs := Fifo.pushAll r.1 ts
    (rs.1, r.2 :: rs.2)

/-- Pull until `pull` returns false, at most `fuel` times, collecting the items. -/
def Fifo.drain (f : Fifo T) (t : T) : Nat → Fifo T × List T
  | 0 => (f, [])
  | fuel + 1 =>
    let r := f.pull t
    if r.2.2 then
      let rs := Fifo.drain r.1 r.2.1 fuel
      (rs.1, r.2.1 :: rs.2)
    else (r.1, [])

/-- The slots of a ring read in order: `n` items from slot `start`, the cursor wrapping
at `size` the way `finishedRead (1)` moves it. -/
def readFrom (buffers : List T) (size : Nat) : Nat → Nat → List T
  | _, 0 => []
  | start, n + 1 =>
    match buffers[start]? with
    | none => []
    | some b => b :: readFrom buffers size (if start + 1 ≥ size then start + 1 - size else start + 1) n

/-- The items a `Fifo` holds, oldest first: the `getNumReady` slots from `validStart`. -/
def Fifo.contents (f : Fifo T) : List T :=
  readFrom f.buffers f.fifo.bufferSize f.fifo.validStart f.fifo.getNumReady

/-- Well-formedness of a `Fifo`: `Capacity` slots, and both cursors inside the ring. -/
def Fifo.Inv (f : Fifo T) : Prop :=
  f.buffers.length = Capacity ∧ f.fifo.bufferSize = Capacity ∧
    f.fifo.validStart < Capacity ∧ f.fifo.validEnd < Capacity

/-- One call on a `Fifo`: `push (t)` or `pull (out)`. -/
inductive FifoOp (T : Type) where
  | push (t : T)
  | pull
  deriving DecidableEq, Repr

/-- A `Fifo` together with the caller's output variable and the history of the calls
made on it: the items whose `push` returned true and the items handed out by the
calls of `pull` that returned true, both in call order. -/
structure FifoRun (T : Type) where
  fifo : Fifo T
  out : T
  pushed : List T
  pulled : List T
  deriving DecidableEq, Repr

/-- Make one call and record its outcome. -/
def FifoRun.step (r : FifoRun T) : FifoOp T → FifoRun T
  | FifoOp.push t =>
    let res := r.fifo.push t
    { r with fifo := res.1, pushed := if res.2 then r.pushed ++ [t] else r.pushed }
  | FifoOp.pull =>
    let res := r.fifo.pull r.out
    { r with fifo := res.1, out := res.2.1,
             pulled := if res.2.2 then r.pulled ++ [res.2.1] else r.pulled }

/-- A sequence of calls on a newly constructed `Fifo` whose slots hold `t0`, the
output variable holding `out0`. -/
def FifoRun.run (t0 out0 : T) (ops : List (FifoOp T)) : FifoRun T :=
  ops.foldl FifoRun.step { fifo := Fifo.init t0, out := out0, pushed := [], pulled := [] }

/-- The history kept by a `FifoRun` agrees with its queue: what was pushed is what was
pulled followed by what is still queued. -/
def FifoRun.Inv (r : FifoRun T) : Prop :=
  r.fifo.Inv ∧ r.pulled ++ r.fifo.contents = r.pushed

/-! ## Audio buffers and the per-channel block accumulator (`PluginProcessor.h`, lines 76-144) -/

/-- A `juce::AudioBuffer<float>`: its channels, each holding `getNumSamples` samples. -/
abbrev AudioBuffer (α : Type) := List (List α)

variable {α : Type}

/-- The method `AudioBuffer::getNumSamples`. -/
def AudioBuffer.getNumSamples (buffer : AudioBuffer α) : Nat :=
  (buffer.headD []).length

/-- The method `AudioBuffer::getReadPointer (channel)`: the samples of one channel. -/
def AudioBuffer.getReadPointer (buffer : AudioBuffer α) (channel : Nat) : List α :=
  buffer.getD channel []

/-- The method `AudioBuffer::setSample (destChannel, destSample, newValue)`. -/
def AudioBuffer.setSample (buffer : AudioBuffer α) (destChannel destSample : Nat)
    (newValue : α) : AudioBuffer α :=
  buffer.set destChannel ((buffer.getD destChannel []).set destSample newValue)

/-- The method `AudioBuffer::clear ()`: every sample becomes 0. -/
def AudioBuffer.clear [Zero α] (buffer : AudioBuffer α) : AudioBuffer α :=
  buffer.map fun channel => channel.map fun _ => 0

/-- The call `setSize (newNumChannels, newNumSamples, false, true, true)`: nothing
happens when the size is the one asked for, otherwise the buffer has the new size and,
the old content not being kept and the extra space being cleared, holds zeros. -/
def AudioBuffer.setSize [Zero α] (buffer : AudioBuffer α) (newNumChannels newNumSamples : Nat) :
    AudioBuffer α :=
  if buffer.length = newNumChannels ∧ buffer.getNumSamples = newNumSamples then buffer
  else List.replicate newNumChannels (List.replicate newNumSamples 0)

/-- The method `Fifo::prepare (numChannels, numSamples)` of a `Fifo` of audio buffers:
every slot is resized and cleared.  The `AbstractFifo` is not touched. -/
def Fifo.prepare [Zero α] (f : Fifo (AudioBuffer α)) (numChannels numSamples : Nat) :
    Fifo (AudioBuffer α) :=
  { f with buffers := f.buffers.map fun buffer => (buffer.setSize numChannels numSamples).clear }

/-- The `enum Channel` of the header: `Right` is 0 and `Left` is 1. -/
inductive Channel where
  | Right
  | Left
  deriving DecidableEq, Repr

/-- The integer value of a `Channel` enumerator. -/
def Channel.toNat : Channel → Nat
  | Right => 0
  | Left => 1

/-- The template `SingleChannelSampleFifo<BlockType>` with
`BlockType = juce::AudioBuffer<float>`. -/
structure SingleChannelSampleFifo (α : Type) where
  channelToUse : Channel
  fifoIndex : Nat
  audioBufferFifo : Fifo (AudioBuffer α)
  bufferToFill : AudioBuffer α
  prepared : Bool
  size : Nat
  deriving DecidableEq, Repr

/-- The constructor `SingleChannelSampleFifo (Channel ch)`: the members have their
default values, the buffers are empty. -/
def SingleChannelSampleFifo.init (ch : Channel) : SingleChannelSampleFifo α :=
  { channelToUse := ch, fifoIndex := 0, audioBufferFifo := Fifo.init [],
    bufferToFill := [], prepared := false, size := 0 }

/-- The method `SingleChannelSampleFifo::prepare (bufferSize)`. -/
def SingleChannelSampleFifo.prepare [Zero α] (s : SingleChannelSampleFifo α) (bufferSize : Nat) :
    SingleChannelSampleFifo α :=
  { s with
    size := bufferSize
    bufferToFill := s.bufferToFill.setSize 1 bufferSize
    audioBufferFifo := s.audioBufferFifo.prepare 1 bufferSize
    fifoIndex := 0
    prepared := true }

/-- The `if` statement that opens `pushNextSampleIntoFifo`: when the write index has
reached the size of the staging block, the block is pushed and the index set to 0.  The
second component is the flag `ok` that `push` returned, when it was called. -/
def SingleChannelSampleFifo.publishIfComplete (s : SingleChannelSampleFifo α) :
    SingleChannelSampleFifo α × Option Bool :=
  if s.fifoIndex = s.bufferToFill.getNumSamples then
    let r := s.audioBufferFifo.push s.bufferToFill
    ({ s with audioBufferFifo := r.1, fifoIndex := 0 }, some r.2)
  else
    (s, none)

/-- The method `SingleChannelSampleFifo::pushNextSampleIntoFifo (sample)`: the `if`
statement, then `bufferToFill.setSample (0, fifoIndex, sample); ++fifoIndex;`. -/
def SingleChannelSampleFifo.pushNextSampleIntoFifo (s : SingleChannelSampleFifo α) (sample : α) :
    SingleChannelSampleFifo α :=
  let s := s.publishIfComplete.1
  { s with
    bufferToFill := s.bufferToFill.setSample 0 s.fifoIndex sample
    fifoIndex := s.fifoIndex + 1 }

/-- The method `SingleChannelSampleFifo::update (buffer)`: the samples of channel
`channelToUse`, index 0 to `getNumSamples - 1`, go through `pushNextSampleIntoFifo`. -/
def SingleChannelSampleFifo.update (s : SingleChannelSampleFifo α) (buffer : AudioBuffer α) :
    SingleChannelSampleFifo α :=
  (buffer.getReadPointer s.channelToUse.toNat).foldl
    SingleChannelSampleFifo.pushNextSampleIntoFifo s

/-- The method `SingleChannelSampleFifo::getNumCompleteBuffersAvailable`. -/
def SingleChannelSampleFifo.getNumCompleteBuffersAvailable (s : SingleChannelSampleFifo α) : Nat :=
  s.audioBufferFifo.getNumAvailableForReading

/-- The method `SingleChannelSampleFifo::getAudioBuffer (buf)`: the accumulator after the
call, the value of `buf` after the call and the returned flag. -/
def SingleChannelSampleFifo.getAudioBuffer (s : SingleChannelSampleFifo α) (buf : AudioBuffer α) :
    SingleChannelSampleFifo α × AudioBuffer α × Bool :=
  let r := s.audioBufferFifo.pull buf
  ({ s with audioBufferFifo := r.1 }, r.2.1, r.2.2)

/-- Call `getAudioBuffer` until it returns false, at most `fuel` times, collecting the
blocks handed out. -/
def SingleChannelSampleFifo.drain (s : SingleChannelSampleFifo α) (buf : AudioBuffer α) :
    Nat → SingleChannelSampleFifo α × List (AudioBuffer α)
  | 0 => (s, [])
  | fuel + 1 =>
    let r := s.getAudioBuffer buf
    if r.2.2 then
      let rs := SingleChannelSampleFifo.drain r.1 r.2.1 fuel
      (rs.1, r.2.1 :: rs.2)
    else (r.1, [])

/-- The relation between an accumulator and what it has been fed, for block size `B`:
the queue holds the one-channel blocks `P`, oldest first, each of `B` samples, and the
staging block starts with the `fifoIndex` samples `staged` written since the last
reset of the write index. -/
def SingleChannelSampleFifo.Staged (B : Nat) (s : SingleChannelSampleFifo α)
    (P : List (List α)) (staged : List α) : Prop :=
  s.audioBufferFifo.Inv ∧ s.audioBufferFifo.contents = P.map (fun b => [b]) ∧
    (∀ b ∈ P, b.length = B) ∧ s.fifoIndex = staged.length ∧
    ∃ rest, s.bufferToFill = [staged ++ rest] ∧ (staged ++ rest).length = B

/-- A sequence of `update` calls, one per buffer. -/
def SingleChannelSampleFifo.updateAll (s : SingleChannelSampleFifo α)
    (buffers : List (AudioBuffer α)) : SingleChannelSampleFifo α :=
  buffers.foldl SingleChannelSampleFifo.update s

/-- The samples of channel `channel` of a sequence of buffers, in arrival order. -/
def channelSamples (channel : Nat) (buffers : List (AudioBuffer α)) : List α :=
  (buffers.map fun buffer => buffer.getReadPointer channel).flatten

/-! ## Settings, filter design and the two chains
(`PluginProcessor.h`, lines 157-247; `PluginProcessor.cpp`, lines 224-320) -/

/-- The `struct ChainSettings` of the header.  The `float` members are rationals. -/
structure ChainSettings where
  peakFreq : ℚ
  peakGainInDecibels : ℚ
  peakQuality : ℚ
  lowCutFreq : ℚ
  highCutFreq : ℚ
  lowCutSlope : Slope
  highCutSlope : Slope
  lowCutBypassed : Bool
  peakBypassed : Bool
  highCutBypassed : Bool
  deriving DecidableEq, Repr

/-- The raw parameter values that `getChainSettings` loads from the
`AudioProcessorValueTreeState`, one per parameter of `createParameterLayout`.  The two
slope parameters are `AudioParameterChoice`s over four strings: their raw value is the
index of the choice. -/
structure ParameterValues where
  lowCutFreq : ℚ
  highCutFreq : ℚ
  peakFreq : ℚ
  peakGain : ℚ
  peakQuality : ℚ
  lowCutSlope : Fin 4
  highCutSlope : Fin 4
  lowCutBypassed : ℚ
  peakBypassed : ℚ
  highCutBypassed : ℚ
  deriving DecidableEq, Repr

/-- The conversion `static_cast<Slope>` of a choice index. -/
def Slope.ofIndex : Fin 4 → Slope
  | 0 => Slope.Slope_12
  | 1 => Slope.Slope_24
  | 2 => Slope.Slope_36
  | 3 => Slope.Slope_48

/-- The literal `0.5f`, as a rational in lowest terms. -/
def oneHalf : ℚ := mkRat 1 2

/-- The function `getChainSettings (apvts)`. -/
def getChainSettings (apvts : ParameterValues) : ChainSettings :=
  { lowCutFreq := apvts.lowCutFreq
    highCutFreq := apvts.highCutFreq
    peakFreq := apvts.peakFreq
    peakGainInDecibels := apvts.peakGain
    peakQuality := apvts.peakQuality
    lowCutSlope := Slope.ofIndex apvts.lowCutSlope
    highCutSlope := Slope.ofIndex apvts.highCutSlope
    lowCutBypassed := decide (apvts.lowCutBypassed > oneHalf)
    peakBypassed := decide (apvts.peakBypassed > oneHalf)
    highCutBypassed := decide (apvts.highCutBypassed > oneHalf) }

/-- The functions of the JUCE library that compute coefficients, taken as given:
`juce::dsp::IIR::Coefficients<float>::makePeakFilter (sampleRate, frequency, Q, gainFactor)`,
`juce::Decibels::decibelsToGain (decibels)` and the two
`juce::dsp::FilterDesign<float>::designIIR...HighOrderButterworthMethod (frequency,
sampleRate, order)`, which return a sequence of coefficient sets. -/
structure FilterDesign (C : Type) where
  makePeakFilter : ℚ → ℚ → ℚ → ℚ → C
  decibelsToGain : ℚ → ℚ
  designIIRHighpassHighOrderButterworthMethod : ℚ → ℚ → Nat → List C
  designIIRLowpassHighOrderButterworthMethod : ℚ → ℚ → Nat → List C

/-- The function `makePeakFilter (chainSettings, sampleRate)`. -/
def makePeakFilter (D : FilterDesign C) (chainSettings : ChainSettings) (sampleRate : ℚ) : C :=
  D.makePeakFilter sampleRate chainSettings.peakFreq chainSettings.peakQuality
    (D.decibelsToGain chainSettings.peakGainInDecibels)

/-- The function `makeLowCutFilter (chainSettings, sampleRate)`. -/
def makeLowCutFilter (D : FilterDesign C) (chainSettings : ChainSettings) (sampleRate : ℚ) :
    List C :=
  D.designIIRHighpassHighOrderButterworthMethod chainSettings.lowCutFreq sampleRate
    (2 * (chainSettings.lowCutSlope.toNat + 1))

/-- The function `makeHighCutFilter (chainSettings, sampleRate)`. -/
def makeHighCutFilter (D : FilterDesign C) (chainSettings : ChainSettings) (sampleRate : ℚ) :
    List C :=
  D.designIIRLowpassHighOrderButterworthMethod chainSettings.highCutFreq sampleRate
    (2 * (chainSettings.highCutSlope.toNat + 1))

/-- A design whose "coefficients" are the arguments it was called with: frequency,
sample rate and order for the two Butterworth designs.  It makes the values that the
code hands to the library observable. -/
def recordingDesign : FilterDesign (ℚ × ℚ × Nat) :=
  { makePeakFilter := fun sampleRate frequency _ _ => (frequency, sampleRate, 0)
    decibelsToGain := fun decibels => decibels
    designIIRHighpassHighOrderButterworthMethod := fun frequency sampleRate order =>
      List.replicate (order / 2) (frequency, sampleRate, order)
    designIIRLowpassHighOrderButterworthMethod := fun frequency sampleRate order =>
      List.replicate (order / 2) (frequency, sampleRate, order) }

/-- The `enum ChainPositions` of the header. -/
inductive ChainPositions where
  | LowCut
  | Peak
  | HighCut
  deriving DecidableEq, Repr

/-- The type `MonoChain = juce::dsp::ProcessorChain<CutFilter, Filter, CutFilter>`: three
stages and the chain's array of three bypass flags. -/
structure MonoChain (C S : Type) where
  lowCut : CutFilter C S
  peak : Filter C S
  highCut : CutFilter C S
  bypassedLowCut : Bool
  bypassedPeak : Bool
  bypassedHighCut : Bool
  deriving DecidableEq, Repr

/-- The call `chain.isBypassed<Index>()` on a `MonoChain`. -/
def MonoChain.isBypassed (chain : MonoChain C S) : ChainPositions → Bool
  | ChainPositions.LowCut => chain.bypassedLowCut
  | ChainPositions.Peak => chain.bypassedPeak
  | ChainPositions.HighCut => chain.bypassedHighCut

/-- The call `chain.setBypassed<Index>(b)` on a `MonoChain`. -/
def MonoChain.setBypassed (chain : MonoChain C S) (position : ChainPositions) (b : Bool) :
    MonoChain C S :=
  match position with
  | ChainPositions.LowCut => { chain with bypassedLowCut := b }
  | ChainPositions.Peak => { chain with bypassedPeak := b }
  | ChainPositions.HighCut => { chain with bypassedHighCut := b }

/-- The members of `SimpleEQAudioProcessor` that the filters and the accumulators use:
the parameter values behind `apvts`, the sample rate that `getSampleRate ()` returns,
the channel counts of the bus layout, the two accumulators and the two chains. -/
structure SimpleEQAudioProcessor (C S α : Type) where
  apvts : ParameterValues
  sampleRate : ℚ
  totalNumInputChannels : Nat
  totalNumOutputChannels : Nat
  leftChannelFifo : SingleChannelSampleFifo α
  rightChannelFifo : SingleChannelSampleFifo α
  leftChain : MonoChain C S
  rightChain : MonoChain C S

/-- The method `SimpleEQAudioProcessor::updatePeakFilter`. -/
def SimpleEQAudioProcessor.updatePeakFilter (D : FilterDesign C)
    (p : SimpleEQAudioProcessor C S α) (chainSettings : ChainSettings) :
    SimpleEQAudioProcessor C S α :=
  let peakCoefficients := makePeakFilter D chainSettings p.sampleRate
  let leftChain := p.leftChain.setBypassed ChainPositions.Peak chainSettings.peakBypassed
  let rightChain := p.rightChain.setBypassed ChainPositions.Peak chainSettings.peakBypassed
  let leftChain := { leftChain with peak := { leftChain.peak with coefficients := peakCoefficients } }
  let rightChain := { rightChain with peak := { rightChain.peak with coefficients := peakCoefficients } }
  { p with leftChain := leftChain, rightChain := rightChain }

/-- The method `SimpleEQAudioProcessor::updateLowCutFilters`: the stage flags are set on
both chains, then `updateCutFilter` runs on the right low-cut stage and on the left one. -/
def SimpleEQAudioProcessor.updateLowCutFilters (D : FilterDesign C)
    (p : SimpleEQAudioProcessor C S α) (chainSettings : ChainSettings) :
    Option (SimpleEQAudioProcessor C S α) :=
  let cutCoefficients := makeLowCutFilter D chainSettings p.sampleRate
  let leftChain := p.leftChain.setBypassed ChainPositions.LowCut chainSettings.lowCutBypassed
  let rightChain := p.rightChain.setBypassed ChainPositions.LowCut chainSettings.lowCutBypassed
  (updateCutFilter rightChain.lowCut cutCoefficients chainSettings.lowCutSlope).bind
    fun rightLowCut =>
  (updateCutFilter leftChain.lowCut cutCoefficients chainSettings.lowCutSlope).bind
    fun leftLowCut =>
  some { p with leftChain := { leftChain with lowCut := leftLowCut },
                rightChain := { rightChain with lowCut := rightLowCut } }

/-- The method `SimpleEQAudioProcessor::updateHighCutFilters`: the stage flags are set on
both chains, then `updateCutFilter` runs on the left high-cut stage and on the right one. -/
def SimpleEQAudioProcessor.updateHighCutFilters (D : FilterDesign C)
    (p : SimpleEQAudioProcessor C S α) (chainSettings : ChainSettings) :
    Option (SimpleEQAudioProcessor C S α) :=
  let highCutCoefficients := makeHighCutFilter D chainSettings p.sampleRate
  let leftChain := p.leftChain.setBypassed ChainPositions.HighCut chainSettings.highCutBypassed
  let rightChain := p.rightChain.setBypassed ChainPositions.HighCut chainSettings.highCutBypassed
  (updateCutFilter leftChain.highCut highCutCoefficients chainSettings.highCutSlope).bind
    fun leftHighCut =>
  (updateCutFilter rightChain.highCut highCutCoefficients chainSettings.highCutSlope).bind
    fun rightHighCut =>
  some { p with leftChain := { leftChain with highCut := leftHighCut },
                rightChain := { rightChain with highCut := rightHighCut } }

/-- The method `SimpleEQAudioProcessor::updateFilters`: one call of `getChainSettings`,
whose result goes to the three update methods. -/
def SimpleEQAudioProcessor.updateFilters (D : FilterDesign C)
    (p : SimpleEQAudioProcessor C S α) : Option (SimpleEQAudioProcessor C S α) :=
  let chainSettings := getChainSettings p.apvts
  (p.updateLowCutFilters D chainSettings).bind fun p =>
  (p.updatePeakFilter D chainSettings).updateHighCutFilters D chainSettings

/-! ## Processing (`PluginProcessor.cpp`, lines 97-123 and 157-187)

`leftChain.process (leftContext)` runs the `process` of `juce::dsp::ProcessorChain` and
of `juce::dsp::IIR::Filter`, library code that is not part of the two source files.
What one active section computes is a given function `step` of its coefficients, its
delay registers and the input sample; the treatment of the bypass flags follows the
specification. -/

/-- Modelled from the spec: `juce::dsp::IIR::Filter<float>::process` is not in the
sources.  One active section ("one second-order IIR unit") maps its coefficients, delay
registers and input sample to new delay registers and an output sample, by `step`. -/
def Filter.processSample (step : C → S → α → S × α) (f : Filter C S) (x : α) :
    Filter C S × α :=
  let r := step f.coefficients f.state x
  ({ f with state := r.1 }, r.2)

/-- Modelled from the spec: the section-level bypass of `juce::dsp::ProcessorChain`,
which is not in the sources.  "Bypassed sections pass the value through unchanged and
must not update their internal state." -/
def Filter.processUnlessBypassed (step : C → S → α → S × α) (bypassed : Bool)
    (f : Filter C S) (x : α) : Filter C S × α :=
  if bypassed then (f, x) else f.processSample step x

/-- Modelled from the spec: `juce::dsp::ProcessorChain::process` on a `CutFilter`, which
is not in the sources.  "Run active sections in index order 0→3." -/
def CutFilter.processSample (step : C → S → α → S × α) (chain : CutFilter C S) (x : α) :
    CutFilter C S × α :=
  let r0 := chain.f0.processUnlessBypassed step chain.bypassed0 x
  let r1 := chain.f1.processUnlessBypassed step chain.bypassed1 r0.2
  let r2 := chain.f2.processUnlessBypassed step chain.bypassed2 r1.2
  let r3 := chain.f3.processUnlessBypassed step chain.bypassed3 r2.2
  ({ chain with f0 := r0.1, f1 := r1.1, f2 := r2.1, f3 := r3.1 }, r3.2)

/-- Modelled from the spec: one stage of `juce::dsp::ProcessorChain::process` on a
`MonoChain`, which is not in the sources.  "Stage bypass = true ⇒ that stage is identity
regardless of internal section state." -/
def MonoChain.processStage (step : C → S → α → S × α) (chain : MonoChain C S)
    (position : ChainPositions) (x : α) : MonoChain C S × α :=
  match position with
  | ChainPositions.LowCut =>
    if chain.bypassedLowCut then (chain, x)
    else
      let r := chain.lowCut.processSample step x
      ({ chain with lowCut := r.1 }, r.2)
  | ChainPositions.Peak =>
    if chain.bypassedPeak then (chain, x)
    else
      let r := chain.peak.processSample step x
      ({ chain with peak := r.1 }, r.2)
  | ChainPositions.HighCut =>
    if chain.bypassedHighCut then (chain, x)
    else
      let r := chain.highCut.processSample step x
      ({ chain with highCut := r.1 }, r.2)

/-- Modelled from the spec: `juce::dsp::ProcessorChain::process` on a `MonoChain` for one
sample, which is not in the sources.  "Sequentially low-cut stage → peak stage →
high-cut stage, honoring stage bypass override." -/
def MonoChain.processSample (step : C → S → α → S × α) (chain : MonoChain C S) (x : α) :
    MonoChain C S × α :=
  let r := chain.processStage step ChainPositions.LowCut x
  let r := r.1.processStage step ChainPositions.Peak r.2
  r.1.processStage step ChainPositions.HighCut r.2

/-- Modelled from the spec: `chain.process (context)` with a replacing context over one
channel, which is not in the sources: "filters every sample of each channel through its
chain", in order, the chain keeping its state from one sample to the next. -/
def MonoChain.process (step : C → S → α → S × α) (chain : MonoChain C S) :
    List α → MonoChain C S × List α
  | [] => (chain, [])
  | x :: xs =>
    let r := chain.processSample step x
    let rs := MonoChain.process step r.1 xs
    (rs.1, r.2 :: rs.2)

/-- The call `buffer.clear (i, 0, buffer.getNumSamples ())`: channel `i` becomes zeros. -/
def AudioBuffer.clearChannel [Zero α] (buffer : AudioBuffer α) (i : Nat) : AudioBuffer α :=
  buffer.set i ((buffer.getD i []).map fun _ => 0)

/-- The method `SimpleEQAudioProcessor::processBlock`, with the buffer after the call:
the output channels that have no input are cleared, the filters are updated, channel 0
goes through `leftChain` and channel 1 through `rightChain`, in place, and both
accumulators are updated from the buffer. -/
def SimpleEQAudioProcessor.processBlock [Zero α] (D : FilterDesign C)
    (step : C → S → α → S × α) (p : SimpleEQAudioProcessor C S α) (buffer : AudioBuffer α) :
    Option (SimpleEQAudioProcessor C S α × AudioBuffer α) :=
  let buffer := (List.range' p.totalNumInputChannels
      (p.totalNumOutputChannels - p.totalNumInputChannels)).foldl AudioBuffer.clearChannel buffer
  (p.updateFilters D).bind fun p =>
  let leftBlock := buffer.getD 0 []
  let rightBlock := buffer.getD 1 []
  let left := p.leftChain.process step leftBlock
  let right := p.rightChain.process step rightBlock
  let buffer := (buffer.set 0 left.2).set 1 right.2
  some ({ p with
          leftChain := left.1
          rightChain := right.1
          leftChannelFifo := p.leftChannelFifo.update buffer
          rightChannelFifo := p.rightChannelFifo.update buffer }, buffer)

/-- The members as the class declares them, before `prepareToPlay`:
`leftChannelFifo { Channel::Left }`, `rightChannelFifo { Channel::Right }`, a stereo
layout, and two chains in the same initial state. -/
def SimpleEQAudioProcessor.new (apvts : ParameterValues) (sampleRate : ℚ)
    (chain : MonoChain C S) : SimpleEQAudioProcessor C S α :=
  { apvts := apvts
    sampleRate := sampleRate
    totalNumInputChannels := 2
    totalNumOutputChannels := 2
    leftChannelFifo := SingleChannelSampleFifo.init Channel.Left
    rightChannelFifo := SingleChannelSampleFifo.init Channel.Right
    leftChain := chain
    rightChain := chain }

/-- The method `SimpleEQAudioProcessor::prepareToPlay (sampleRate, samplesPerBlock)`: the
filters are updated and both accumulators prepared for `samplesPerBlock` samples.  Left
out are `chain.prepare (spec)`, which resets the delay registers inside the library
filters and leaves flags and coefficients alone, and the oscillator, which
`processBlock` does not use.  The sample rate is the member that `getSampleRate ()`
reads. -/
def SimpleEQAudioProcessor.prepareToPlay [Zero α] (D : FilterDesign C)
    (p : SimpleEQAudioProcessor C S α) (samplesPerBlock : Nat) :
    Option (SimpleEQAudioProcessor C S α) :=
  (p.updateFilters D).bind fun p =>
  some { p with
         leftChannelFifo := p.leftChannelFifo.prepare samplesPerBlock
         rightChannelFifo := p.rightChannelFifo.prepare samplesPerBlock }

/-! ## A concrete set-up used to evaluate the code -/

/-- Parameter values with both cut stages bypassed and the peak stage active. -/
def exampleParameters : ParameterValues :=
  { lowCutFreq := 20, highCutFreq := 20000, peakFreq := 750, peakGain := 0, peakQuality := 1
    lowCutSlope := 0, highCutSlope := 0
    lowCutBypassed := 1, peakBypassed := 0, highCutBypassed := 1 }

/-- A design over integer "coefficients": every peak filter is 10, every cut section 0,
a Butterworth design of order `n` having `n / 2` sections. -/
def exampleDesign : FilterDesign Nat :=
  { makePeakFilter := fun _ _ _ _ => 10
    decibelsToGain := fun decibels => decibels
    designIIRHighpassHighOrderButterworthMethod := fun _ _ order => List.replicate (order / 2) 0
    designIIRLowpassHighOrderButterworthMethod := fun _ _ order => List.replicate (order / 2) 0 }

/-- A section without memory that adds its coefficient to the sample. -/
def exampleStep (c : Nat) (s : Unit) (x : Nat) : Unit × Nat :=
  (s, x + c)

/-- A chain with every stage and every section active. -/
def exampleChain : MonoChain Nat Unit :=
  { lowCut := ⟨⟨1, ()⟩, ⟨2, ()⟩, ⟨3, ()⟩, ⟨4, ()⟩, false, false, false, false⟩
    peak := ⟨5, ()⟩
    highCut := ⟨⟨6, ()⟩, ⟨7, ()⟩, ⟨8, ()⟩, ⟨9, ()⟩, false, false, false, false⟩
    bypassedLowCut := false
    bypassedPeak := false
    bypassedHighCut := false }

/-- Settings with both cut stages at 12 dB per octave and nothing bypassed. -/
def exampleSettings : ChainSettings :=
  { peakFreq := 750, peakGainInDecibels := 0, peakQuality := 1
    lowCutFreq := 20, highCutFreq := 20000
    lowCutSlope := Slope.Slope_12, highCutSlope := Slope.Slope_12
    lowCutBypassed := false, peakBypassed := false, highCutBypassed := false }

/-- Parameter values asking for 36 dB per octave on the low cut and 24 dB per octave on
the high cut, with only the peak stage bypassed. -/
def exampleSlopes : ParameterValues :=
  { exampleParameters with
    lowCutSlope := 2, highCutSlope := 1
    lowCutBypassed := 0, peakBypassed := 1, highCutBypassed := 0 }

/-- A processor whose two chains differ before the update: the right chain has other
coefficients, other section flags and other stage flags than the left one. -/
def exampleProcessor : SimpleEQAudioProcessor Nat Unit Nat :=
  { (SimpleEQAudioProcessor.new exampleSlopes 44100 exampleChain :
      SimpleEQAudioProcessor Nat Unit Nat) with
    rightChain :=
      { lowCut := ⟨⟨11, ()⟩, ⟨12, ()⟩, ⟨13, ()⟩, ⟨14, ()⟩, true, false, true, false⟩
        peak := ⟨15, ()⟩
        highCut := ⟨⟨16, ()⟩, ⟨17, ()⟩, ⟨18, ()⟩, ⟨19, ()⟩, true, true, true, true⟩
        bypassedLowCut := true
        bypassedPeak := false
        bypassedHighCut := true } }

/-- A chain with the three stage flags set and every section inside its stages active. -/
def exampleBypassedChain : MonoChain Nat Unit :=
  { exampleChain with bypassedLowCut := true, bypassedPeak := true, bypassedHighCut := true }

/-- The bounds on the write index of an accumulator whose staging block has `B` samples:
`fifoIndex` does not exceed `B`.  Nothing is asked of the `Fifo`. -/
def SingleChannelSampleFifo.IndexInv (B : Nat) (s : SingleChannelSampleFifo α) : Prop :=
  s.bufferToFill.getNumSamples = B ∧ s.fifoIndex ≤ B

/-- A design over integer "coefficients" whose Butterworth designs of order `n` return
the `n / 2` distinct sections 100, 101, ... -/
def exampleSectionDesign : FilterDesign Nat :=
  { makePeakFilter := fun _ _ _ _ => 10
    decibelsToGain := fun decibels => decibels
    designIIRHighpassHighOrderButterworthMethod := fun _ _ order =>
      (List.range (order / 2)).map fun i => 100 + i
    designIIRLowpassHighOrderButterworthMethod := fun _ _ order =>
      (List.range (order / 2)).map fun i => 200 + i }

/-- Settings asking for 36 dB per octave on the low cut and 24 dB per octave on the
high cut. -/
def exampleSteepSettings : ChainSettings :=
  { exampleSettings with lowCutSlope := Slope.Slope_36, highCutSlope := Slope.Slope_24 }

/-- The relation `Staged` for an accumulator whose queue already held the blocks `Q`
when it was prepared: the queue holds `Q` followed by the one-channel blocks `P`, each
of `B` samples, and the staging block starts with the `fifoIndex` samples `staged`. -/
def SingleChannelSampleFifo.StagedAfter (B : Nat) (Q : List (AudioBuffer α))
    (s : SingleChannelSampleFifo α) (P : List (List α)) (staged : List α) : Prop :=
  s.audioBufferFifo.Inv ∧ s.audioBufferFifo.contents = Q ++ P.map (fun b => [b]) ∧
    (∀ b ∈ P, b.length = B) ∧ s.fifoIndex = staged.length ∧
    ∃ rest, s.bufferToFill = [staged ++ rest] ∧ (staged ++ rest).length = B

/-! ## Theorems -/

/-! ### The capture FIFO -/

theorem Fifo.init_inv (t0 : T) : (Fifo.init t0).Inv := by
  simp [Fifo.Inv, Fifo.init, AbstractFifo.init, Capacity]

theorem Fifo.init_contents (t0 : T) : (Fifo.init t0).contents = [] := by
  simp [Fifo.contents, Fifo.init, AbstractFifo.init, AbstractFifo.getNumReady, readFrom]

theorem Fifo.numReady_lt (f : Fifo T) (h : f.Inv) : f.getNumAvailableForReading < Capacity := by
  obtain ⟨_, h2, h3, h4⟩ := h
  simp only [Fifo.getNumAvailableForReading, AbstractFifo.getNumReady, Capacity] at *
  split <;> omega

theorem readFrom_length (buffers : List T) (size : Nat) (hs : buffers.length = size) :
    ∀ (n start : Nat), start < size → (readFrom buffers size start n).length = n := by
  intro n
  induction n with
  | zero => intro start _; rfl
  | succ n ih =>
    intro start hstart
    have hb : buffers[start]? = some (buffers.get ⟨start, by omega⟩) :=
      List.getElem?_eq_getElem (by omega)
    simp only [readFrom, hb, List.length_cons]
    rw [ih]
    split <;> omega

theorem Fifo.contents_length (f : Fifo T) (h : f.Inv) :
    f.contents.length = f.getNumAvailableForReading := by
  obtain ⟨h1, h2, h3, _⟩ := h
  exact readFrom_length f.buffers f.fifo.bufferSize (by omega) _ _ (by omega)

theorem readFrom_set_snoc (buffers : List T) (size : Nat) (hs : buffers.length = size)
    (t : T) (ve : Nat) (hve : ve < size) :
    ∀ (n start : Nat), start < size → n < size → ve = (start + n) % size →
      readFrom (buffers.set ve t) size start (n + 1) = readFrom buffers size start n ++ [t] := by
  intro n
  induction n with
  | zero =>
    intro start hstart _ hv
    have hv2 : ve = start := by rw [hv, Nat.add_zero, Nat.mod_eq_of_lt hstart]
    subst hv2
    simp [readFrom, List.getElem?_set_self (by omega : ve < buffers.length)]
  | succ n ih =>
    intro start hstart hn hv
    have hne : ve ≠ start := by
      intro h
      rw [h] at hv
      rcases Nat.lt_or_ge (start + (n + 1)) size with h1 | h1
      · rw [Nat.mod_eq_of_lt h1] at hv; omega
      · rw [Nat.mod_eq_sub_mod h1, Nat.mod_eq_of_lt (by omega)] at hv; omega
    have hb : buffers[start]? = some (buffers.get ⟨start, by omega⟩) :=
      List.getElem?_eq_getElem (by omega)
    have hb2 : (buffers.set ve t)[start]? = some (buffers.get ⟨start, by omega⟩) := by
      rw [List.getElem?_set_ne hne]; exact hb
    rw [readFrom, hb2]
    simp only []
    rw [ih, readFrom, hb]
    · simp
    · split <;> omega
    · omega
    · split
      · have h1 : start + 1 = size := by omega
        have h2 : start + 1 - size + n = n := by omega
        have h3 : start + (n + 1) = n + size := by omega
        rw [hv, h2, h3, Nat.add_mod_right]
      · rw [hv]; congr 1; omega



theorem AbstractFifo.getNumReady_lt_bufferSize (a : AbstractFifo) (h1 : a.validStart < a.bufferSize)
    (h2 : a.validEnd < a.bufferSize) : a.getNumReady < a.bufferSize := by
  simp only [AbstractFifo.getNumReady]
  split <;> omega

theorem AbstractFifo.prepareToRead_empty (a : AbstractFifo) (h0 : a.getNumReady = 0) :
    a.prepareToRead 1 = ⟨0, 0, 0, 0⟩ := by
  simp only [AbstractFifo.getNumReady] at h0
  simp only [AbstractFifo.prepareToRead, h0]
  rfl

theorem AbstractFifo.prepareToRead_ready (a : AbstractFifo) (h1 : a.validStart < a.bufferSize)
    (h0 : 0 < a.getNumReady) : a.prepareToRead 1 = ⟨a.validStart, 1, 0, 0⟩ := by
  simp only [AbstractFifo.getNumReady] at h0
  simp only [AbstractFifo.prepareToRead]
  have e1 : min 1 (if a.validEnd ≥ a.validStart then a.validEnd - a.validStart
      else a.bufferSize - (a.validStart - a.validEnd)) = 1 := by omega
  have e2 : min (a.bufferSize - a.validStart) 1 = 1 := by omega
  rw [e1, e2]
  rfl

theorem AbstractFifo.prepareToWrite_full (a : AbstractFifo) (h1 : a.validStart < a.bufferSize)
    (_h2 : a.validEnd < a.bufferSize) (h0 : a.getNumReady + 1 = a.bufferSize) :
    a.prepareToWrite 1 = ⟨0, 0, 0, 0⟩ := by
  simp only [AbstractFifo.getNumReady] at h0
  simp only [AbstractFifo.prepareToWrite]
  have e1 : min 1 ((if a.validEnd ≥ a.validStart then a.bufferSize - (a.validEnd - a.validStart)
      else a.validStart - a.validEnd) - 1) = 0 := by
    split at h0 <;> split <;> omega
  rw [e1]
  rfl

theorem AbstractFifo.prepareToWrite_free (a : AbstractFifo) (_h1 : a.validStart < a.bufferSize)
    (h2 : a.validEnd < a.bufferSize) (h0 : a.getNumReady + 1 < a.bufferSize) :
    a.prepareToWrite 1 = ⟨a.validEnd, 1, 0, 0⟩ := by
  simp only [AbstractFifo.getNumReady] at h0
  simp only [AbstractFifo.prepareToWrite]
  have e1 : min 1 ((if a.validEnd ≥ a.validStart then a.bufferSize - (a.validEnd - a.validStart)
      else a.validStart - a.validEnd) - 1) = 1 := by
    split at h0 <;> split <;> omega
  have e2 : min (a.bufferSize - a.validEnd) 1 = 1 := by omega
  rw [e1, e2]
  rfl

theorem AbstractFifo.finishedRead_zero (a : AbstractFifo) (h1 : a.validStart < a.bufferSize) :
    a.finishedRead 0 = a := by
  obtain ⟨bs, vs, ve⟩ := a
  simp only [AbstractFifo.finishedRead, Nat.add_zero]
  rw [if_neg (by simpa using h1)]

theorem AbstractFifo.finishedWrite_zero (a : AbstractFifo) (h2 : a.validEnd < a.bufferSize) :
    a.finishedWrite 0 = a := by
  obtain ⟨bs, vs, ve⟩ := a
  simp only [AbstractFifo.finishedWrite, Nat.add_zero]
  rw [if_neg (by simpa using h2)]

theorem AbstractFifo.numReady_finishedRead (a : AbstractFifo)
    (h1 : a.validStart < a.bufferSize) (h2 : a.validEnd < a.bufferSize)
    (h0 : 0 < a.getNumReady) : (a.finishedRead 1).getNumReady + 1 = a.getNumReady := by
  obtain ⟨bs, vs, ve⟩ := a
  simp only [AbstractFifo.getNumReady, AbstractFifo.finishedRead] at *
  split at h0 <;> split <;> split <;> omega

theorem AbstractFifo.numReady_finishedWrite (a : AbstractFifo)
    (h1 : a.validStart < a.bufferSize) (h2 : a.validEnd < a.bufferSize)
    (h0 : a.getNumReady + 1 < a.bufferSize) :
    (a.finishedWrite 1).getNumReady = a.getNumReady + 1 := by
  obtain ⟨bs, vs, ve⟩ := a
  simp only [AbstractFifo.getNumReady, AbstractFifo.finishedWrite] at *
  split at h0 <;> split <;> split <;> omega

theorem AbstractFifo.validEnd_eq (a : AbstractFifo)
    (h1 : a.validStart < a.bufferSize) (h2 : a.validEnd < a.bufferSize) :
    a.validEnd = (a.validStart + a.getNumReady) % a.bufferSize := by
  obtain ⟨bs, vs, ve⟩ := a
  simp only [AbstractFifo.getNumReady] at *
  split
  · rw [Nat.mod_eq_of_lt (by omega)]; omega
  · have e : vs + (bs - (vs - ve)) = ve + bs := by omega
    rw [e, Nat.add_mod_right, Nat.mod_eq_of_lt h2]

theorem Fifo.pull_empty (f : Fifo T) (h : f.Inv) (h0 : f.getNumAvailableForReading = 0)
    (t : T) : f.pull t = (f, t, false) := by
  obtain ⟨_, h2, h3, h4⟩ := h
  have e := f.fifo.prepareToRead_empty h0
  simp only [Fifo.pull, e, f.fifo.finishedRead_zero (by omega)]
  rfl

theorem Fifo.pull_nonempty (f : Fifo T) (h : f.Inv) (h0 : 0 < f.getNumAvailableForReading)
    (t : T) :
    ∃ b, f.contents = b :: (f.pull t).1.contents ∧ (f.pull t).2 = (b, true) ∧
      (f.pull t).1.Inv ∧
      (f.pull t).1.getNumAvailableForReading + 1 = f.getNumAvailableForReading := by
  obtain ⟨h1, h2, h3, h4⟩ := h
  have e := f.fifo.prepareToRead_ready (by omega) h0
  have hnr := f.fifo.numReady_finishedRead (by omega) (by omega) h0
  have hb : f.buffers[f.fifo.validStart]? = some (f.buffers.get ⟨f.fifo.validStart, by omega⟩) :=
    List.getElem?_eq_getElem (by omega)
  have hp : f.pull t = ({ f with fifo := f.fifo.finishedRead 1 },
      f.buffers.get ⟨f.fifo.validStart, by omega⟩, true) := by
    simp only [Fifo.pull, e, hb]
    rfl
  refine ⟨f.buffers.get ⟨f.fifo.validStart, by omega⟩, ?_, ?_, ?_, ?_⟩
  · rw [hp]
    simp only [Fifo.contents]
    rw [← hnr, readFrom, hb]
    rfl
  · rw [hp]
  · rw [hp]
    refine ⟨h1, h2, ?_, h4⟩
    simp only [AbstractFifo.finishedRead]
    split <;> omega
  · rw [hp]; exact hnr

theorem Fifo.push_full (f : Fifo T) (h : f.Inv)
    (h0 : f.getNumAvailableForReading + 1 = Capacity) (t : T) : f.push t = (f, false) := by
  obtain ⟨_, h2, h3, h4⟩ := h
  have e := f.fifo.prepareToWrite_full (by omega) (by omega) (by rw [h2]; exact h0)
  simp only [Fifo.push, e, f.fifo.finishedWrite_zero (by omega)]
  rfl

theorem Fifo.push_free (f : Fifo T) (h : f.Inv)
    (h0 : f.getNumAvailableForReading + 1 < Capacity) (t : T) :
    (f.push t).2 = true ∧ (f.push t).1.contents = f.contents ++ [t] ∧ (f.push t).1.Inv ∧
      (f.push t).1.getNumAvailableForReading = f.getNumAvailableForReading + 1 := by
  obtain ⟨h1, h2, h3, h4⟩ := h
  have e := f.fifo.prepareToWrite_free (by omega) (by omega) (by rw [h2]; exact h0)
  have hnr := f.fifo.numReady_finishedWrite (by omega) (by omega) (by rw [h2]; exact h0)
  have hp : f.push t
      = ((⟨f.buffers.set f.fifo.validEnd t, f.fifo.finishedWrite 1⟩ : Fifo T), true) := by
    simp only [Fifo.push, e]
    rfl
  rw [hp]
  refine ⟨rfl, ?_, ?_, hnr⟩
  · simp only [Fifo.contents]
    rw [hnr]
    exact readFrom_set_snoc f.buffers f.fifo.bufferSize (by omega) t f.fifo.validEnd (by omega)
      f.fifo.getNumReady f.fifo.validStart (by omega) (by rw [h2]; exact Nat.lt_of_succ_lt h0)
      (f.fifo.validEnd_eq (by omega) (by omega))
  · refine ⟨by simpa using h1, h2, h3, ?_⟩
    simp only [AbstractFifo.finishedWrite]
    split <;> omega

theorem FifoRun.step_inv (r : FifoRun T) (h : r.Inv) (op : FifoOp T) : (r.step op).Inv := by
  obtain ⟨hi, hc⟩ := h
  cases op with
  | push t =>
    have hlt := r.fifo.numReady_lt hi
    rcases Nat.lt_or_ge (r.fifo.getNumAvailableForReading + 1) Capacity with hf | hf
    · obtain ⟨h1, h2, h3, _⟩ := r.fifo.push_free hi hf t
      refine ⟨h3, ?_⟩
      simp only [FifoRun.step, h1, h2, if_true]
      rw [← List.append_assoc, hc]
    · have h1 := r.fifo.push_full hi (by omega) t
      simp only [FifoRun.Inv, FifoRun.step, h1]
      exact ⟨hi, hc⟩
  | pull =>
    rcases Nat.eq_zero_or_pos r.fifo.getNumAvailableForReading with h0 | h0
    · have h1 := r.fifo.pull_empty hi h0 r.out
      simp only [FifoRun.Inv, FifoRun.step, h1]
      exact ⟨hi, hc⟩
    · obtain ⟨b, h1, h2, h3, _⟩ := r.fifo.pull_nonempty hi h0 r.out
      refine ⟨h3, ?_⟩
      simp only [FifoRun.step, h2, if_true]
      rw [List.append_assoc, List.singleton_append, ← h1, hc]

theorem FifoRun.foldl_inv (ops : List (FifoOp T)) :
    ∀ r : FifoRun T, r.Inv → (ops.foldl FifoRun.step r).Inv := by
  induction ops with
  | nil => intro r h; exact h
  | cons op ops ih => intro r h; exact ih _ (r.step_inv h op)

theorem FifoRun.run_inv (t0 out0 : T) (ops : List (FifoOp T)) :
    (FifoRun.run t0 out0 ops).Inv := by
  apply FifoRun.foldl_inv
  exact ⟨Fifo.init_inv t0, by simp [Fifo.init_contents]⟩

/-! ### Cut-filter chains -/

theorem update_eq_some (i : Fin 4) (chain : CutFilter C S) (coefficients : List C)
    (h : i.val < coefficients.length) :
    update i chain coefficients
      = some ((chain.updateCoefficients i (coefficients.get ⟨i.val, h⟩)).setBypassed i false) := by
  unfold update
  rw [List.getElem?_eq_getElem h]
  rfl

theorem updateCutFilter_result (chain : CutFilter C S) (coefficients : List C)
    (slope : Slope) (hlen : slope.toNat < coefficients.length) :
    ∃ chain', updateCutFilter chain coefficients slope = some chain' ∧
      (∀ i : Fin 4, chain'.isBypassed i = decide (slope.toNat < i.val)) ∧
      (∀ i : Fin 4, i.val ≤ slope.toNat →
        some (chain'.get i).coefficients = coefficients[i.val]?) ∧
      (∀ i : Fin 4, slope.toNat < i.val →
        (chain'.get i).coefficients = (chain.get i).coefficients) ∧
      (∀ i : Fin 4, (chain'.get i).state = (chain.get i).state) := by
  cases slope <;> simp only [Slope.toNat] at hlen ⊢
  · simp only [updateCutFilter, Option.bind,
      update_eq_some 0 _ coefficients (by show 0 < coefficients.length; omega)]
    refine ⟨_, rfl, ?_, ?_, ?_, ?_⟩ <;> intro i <;>
      fin_cases i <;> simp [CutFilter.isBypassed, CutFilter.setBypassed, CutFilter.get,
        CutFilter.updateCoefficients, List.getElem?_eq_getElem, hlen]
  · simp only [updateCutFilter, Option.bind,
      update_eq_some 0 _ coefficients (by show 0 < coefficients.length; omega),
      update_eq_some 1 _ coefficients (by show 1 < coefficients.length; omega)]
    refine ⟨_, rfl, ?_, ?_, ?_, ?_⟩ <;> intro i <;>
      fin_cases i <;> simp [CutFilter.isBypassed, CutFilter.setBypassed, CutFilter.get,
        CutFilter.updateCoefficients, List.getElem?_eq_getElem, hlen]
  · simp only [updateCutFilter, Option.bind,
      update_eq_some 0 _ coefficients (by show 0 < coefficients.length; omega),
      update_eq_some 1 _ coefficients (by show 1 < coefficients.length; omega),
      update_eq_some 2 _ coefficients (by show 2 < coefficients.length; omega)]
    refine ⟨_, rfl, ?_, ?_, ?_, ?_⟩ <;> intro i <;>
      fin_cases i <;> simp [CutFilter.isBypassed, CutFilter.setBypassed, CutFilter.get,
        CutFilter.updateCoefficients, List.getElem?_eq_getElem, hlen]
  · simp only [updateCutFilter, Option.bind,
      update_eq_some 0 _ coefficients (by show 0 < coefficients.length; omega),
      update_eq_some 1 _ coefficients (by show 1 < coefficients.length; omega),
      update_eq_some 2 _ coefficients (by show 2 < coefficients.length; omega),
      update_eq_some 3 _ coefficients (by show 3 < coefficients.length; omega)]
    refine ⟨_, rfl, ?_, ?_, ?_, ?_⟩ <;> intro i <;>
      fin_cases i <;> simp [CutFilter.isBypassed, CutFilter.setBypassed, CutFilter.get,
        CutFilter.updateCoefficients, List.getElem?_eq_getElem, hlen]
    all_goals rfl

/-- C1: for every prior state of a cut chain, every slope level `L` and every
coefficient sequence with more than `L` elements, `updateCutFilter` returns a chain in
which section `i` is active exactly when `i ≤ L`; `L + 1` sections are active and
`3 - L` are bypassed, whatever the flags were before. -/
theorem updateCutFilter_active_iff (chain : CutFilter C S) (coefficients : List C)
    (slope : Slope) (hlen : slope.toNat < coefficients.length) :
    ∃ chain', updateCutFilter chain coefficients slope = some chain' ∧
      (∀ i : Fin 4, chain'.isBypassed i = false ↔ i.val ≤ slope.toNat) ∧
      chain'.numActive = slope.toNat + 1 ∧
      chain'.numBypassed = 3 - slope.toNat := by
  cases slope <;> simp only [Slope.toNat] at hlen ⊢
  · simp only [updateCutFilter, Option.bind,
      update_eq_some 0 _ coefficients (by show 0 < coefficients.length; omega)]
    refine ⟨_, rfl, ?_, rfl, rfl⟩
    intro i
    fin_cases i <;> simp [CutFilter.isBypassed, CutFilter.setBypassed,
      CutFilter.updateCoefficients]
  · simp only [updateCutFilter, Option.bind,
      update_eq_some 0 _ coefficients (by show 0 < coefficients.length; omega),
      update_eq_some 1 _ coefficients (by show 1 < coefficients.length; omega)]
    refine ⟨_, rfl, ?_, rfl, rfl⟩
    intro i
    fin_cases i <;> simp [CutFilter.isBypassed, CutFilter.setBypassed,
      CutFilter.updateCoefficients]
  · simp only [updateCutFilter, Option.bind,
      update_eq_some 0 _ coefficients (by show 0 < coefficients.length; omega),
      update_eq_some 1 _ coefficients (by show 1 < coefficients.length; omega),
      update_eq_some 2 _ coefficients (by show 2 < coefficients.length; omega)]
    refine ⟨_, rfl, ?_, rfl, rfl⟩
    intro i
    fin_cases i <;> simp [CutFilter.isBypassed, CutFilter.setBypassed,
      CutFilter.updateCoefficients]
  · simp only [updateCutFilter, Option.bind,
      update_eq_some 0 _ coefficients (by show 0 < coefficients.length; omega),
      update_eq_some 1 _ coefficients (by show 1 < coefficients.length; omega),
      update_eq_some 2 _ coefficients (by show 2 < coefficients.length; omega),
      update_eq_some 3 _ coefficients (by show 3 < coefficients.length; omega)]
    refine ⟨_, rfl, ?_, rfl, rfl⟩
    intro i
    fin_cases i <;> simp [CutFilter.isBypassed, CutFilter.setBypassed,
      CutFilter.updateCoefficients]

example : ((Fifo.init 0).pushAll (List.range 31)).2 = List.replicate 29 true ++ [false, false] := by decide

/-! ### The capture FIFO as a queue -/

/-- C10: for every sequence of `push` and `pull` calls on a newly constructed `Fifo`,
the items pulled so far are the first items successfully pushed, in push order;
`getNumAvailableForReading` is the number of successful pushes minus the number of
successful pulls; a further `pull` returns false exactly when that number is 0, and then
leaves the queue and the output item as they were; and a further `pull` that succeeds
hands out the oldest pushed item not yet pulled. -/
theorem Fifo_is_first_in_first_out (t0 out0 : T) (ops : List (FifoOp T)) :
    (FifoRun.run t0 out0 ops).pulled
        = (FifoRun.run t0 out0 ops).pushed.take (FifoRun.run t0 out0 ops).pulled.length ∧
      (FifoRun.run t0 out0 ops).pulled.length ≤ (FifoRun.run t0 out0 ops).pushed.length ∧
      (FifoRun.run t0 out0 ops).fifo.getNumAvailableForReading
        = (FifoRun.run t0 out0 ops).pushed.length - (FifoRun.run t0 out0 ops).pulled.length ∧
      (∀ out : T, ((FifoRun.run t0 out0 ops).fifo.pull out).2.2 = false ↔
        (FifoRun.run t0 out0 ops).fifo.getNumAvailableForReading = 0) ∧
      (∀ out : T, (FifoRun.run t0 out0 ops).fifo.getNumAvailableForReading = 0 →
        (FifoRun.run t0 out0 ops).fifo.pull out = ((FifoRun.run t0 out0 ops).fifo, out, false)) ∧
      (∀ out : T, ((FifoRun.run t0 out0 ops).fifo.pull out).2.2 = true →
        (FifoRun.run t0 out0 ops).pushed[(FifoRun.run t0 out0 ops).pulled.length]?
          = some ((FifoRun.run t0 out0 ops).fifo.pull out).2.1) := by
  obtain ⟨hi, hc⟩ := FifoRun.run_inv t0 out0 ops
  generalize FifoRun.run t0 out0 ops = r at hi hc
  have hlen := r.fifo.contents_length hi
  have hpl : r.pushed.length = r.pulled.length + r.fifo.getNumAvailableForReading := by
    rw [← hc, List.length_append, hlen]
  refine ⟨?_, by omega, by omega, ?_, ?_, ?_⟩
  · rw [← hc, List.take_left]
  · intro out
    rcases Nat.eq_zero_or_pos r.fifo.getNumAvailableForReading with h0 | h0
    · simp [r.fifo.pull_empty hi h0 out, h0]
    · obtain ⟨b, _, h2, _, _⟩ := r.fifo.pull_nonempty hi h0 out
      simp [h2]
      omega
  · intro out h0
    exact r.fifo.pull_empty hi h0 out
  · intro out hout
    rcases Nat.eq_zero_or_pos r.fifo.getNumAvailableForReading with h0 | h0
    · simp [r.fifo.pull_empty hi h0 out] at hout
    · obtain ⟨b, h1, h2, _, _⟩ := r.fifo.pull_nonempty hi h0 out
      rw [← hc, h1, h2, List.getElem?_append_right (Nat.le_refl _), Nat.sub_self,
        List.getElem?_cons_zero]

/-! ### The block accumulator -/

theorem set_length_append (l : List α) (r : α) (rs : List α) (x : α) :
    (l ++ r :: rs).set l.length x = l ++ x :: rs := by
  induction l with
  | nil => rfl
  | cons a l ih => simp [ih]

theorem Fifo.prepare_inv [Zero α] (f : Fifo (AudioBuffer α)) (h : f.Inv) (c n : Nat) :
    (f.prepare c n).Inv := by
  obtain ⟨h1, h2, h3, h4⟩ := h
  exact ⟨by simpa [Fifo.prepare] using h1, h2, h3, h4⟩

theorem SingleChannelSampleFifo.prepare_staged [Zero α] (ch : Channel) (B : Nat) :
    ((SingleChannelSampleFifo.init ch : SingleChannelSampleFifo α).prepare B).Staged B [] [] := by
  refine ⟨Fifo.prepare_inv _ (Fifo.init_inv _) 1 B, ?_, ?_, rfl, List.replicate B 0, ?_, ?_⟩
  · simp [SingleChannelSampleFifo.prepare, SingleChannelSampleFifo.init, Fifo.prepare,
      Fifo.contents, Fifo.init, AbstractFifo.init, AbstractFifo.getNumReady, readFrom]
  · intro b hb; cases hb
  · simp [SingleChannelSampleFifo.prepare, SingleChannelSampleFifo.init, AudioBuffer.setSize]
  · simp

theorem SingleChannelSampleFifo.Staged.numSamples {B : Nat} {s : SingleChannelSampleFifo α}
    {P : List (List α)} {staged : List α} (h : s.Staged B P staged) :
    s.bufferToFill.getNumSamples = B := by
  obtain ⟨_, _, _, _, rest, hb, hl⟩ := h
  rw [hb]
  exact hl

theorem SingleChannelSampleFifo.Staged.numAvailable {B : Nat} {s : SingleChannelSampleFifo α}
    {P : List (List α)} {staged : List α} (h : s.Staged B P staged) :
    s.getNumCompleteBuffersAvailable = P.length := by
  obtain ⟨hi, hc, _⟩ := h
  rw [SingleChannelSampleFifo.getNumCompleteBuffersAvailable, ← Fifo.contents_length _ hi, hc,
    List.length_map]

theorem SingleChannelSampleFifo.Staged.step_write {B : Nat} {s : SingleChannelSampleFifo α}
    {P : List (List α)} {staged : List α} (h : s.Staged B P staged)
    (hlt : staged.length < B) (x : α) :
    (s.pushNextSampleIntoFifo x).Staged B P (staged ++ [x]) := by
  have hn := h.numSamples
  obtain ⟨hi, hc, hP, hidx, rest, hb, hl⟩ := h
  have hne : ¬ s.fifoIndex = s.bufferToFill.getNumSamples := by omega
  have hpub : s.publishIfComplete = (s, none) := by
    simp only [SingleChannelSampleFifo.publishIfComplete, if_neg hne]
  obtain _ | ⟨r, rs⟩ := rest
  · simp at hl; omega
  · refine ⟨?_, ?_, hP, ?_, rs, ?_, ?_⟩
    · simpa only [SingleChannelSampleFifo.pushNextSampleIntoFifo, hpub] using hi
    · simpa only [SingleChannelSampleFifo.pushNextSampleIntoFifo, hpub] using hc
    · simp [SingleChannelSampleFifo.pushNextSampleIntoFifo, hpub, hidx]
    · simp only [SingleChannelSampleFifo.pushNextSampleIntoFifo, hpub, hb, hidx,
        AudioBuffer.setSample]
      simp [set_length_append]
    · simp at hl ⊢; omega

theorem SingleChannelSampleFifo.Staged.step_publish {B : Nat} {s : SingleChannelSampleFifo α}
    {P : List (List α)} {staged : List α} (h : s.Staged B P staged) (hB : 0 < B)
    (heq : staged.length = B) (hfree : P.length + 1 < Capacity) (x : α) :
    (s.pushNextSampleIntoFifo x).Staged B (P ++ [staged]) [x] := by
  have hn := h.numSamples
  have hav := h.numAvailable
  obtain ⟨hi, hc, hP, hidx, rest, hb, hl⟩ := h
  have hrest : rest = [] := by
    apply List.eq_nil_of_length_eq_zero
    simp at hl; omega
  subst hrest
  rw [List.append_nil] at hb
  have he : s.fifoIndex = s.bufferToFill.getNumSamples := by omega
  obtain ⟨h1, h2, h3, _⟩ := s.audioBufferFifo.push_free hi
    (by rw [SingleChannelSampleFifo.getNumCompleteBuffersAvailable] at hav; omega) s.bufferToFill
  have hpub : s.publishIfComplete
      = ({ s with audioBufferFifo := (s.audioBufferFifo.push s.bufferToFill).1, fifoIndex := 0 },
          some true) := by
    simp only [SingleChannelSampleFifo.publishIfComplete, if_pos he, h1]
  obtain _ | ⟨a, as⟩ := staged
  · simp at heq; omega
  · refine ⟨?_, ?_, ?_, ?_, as, ?_, ?_⟩
    · simpa only [SingleChannelSampleFifo.pushNextSampleIntoFifo, hpub] using h3
    · simp only [SingleChannelSampleFifo.pushNextSampleIntoFifo, hpub]
      rw [h2, hc, hb]
      simp
    · intro b hb'
      rcases List.mem_append.1 hb' with hb' | hb'
      · exact hP b hb'
      · rw [List.mem_singleton.1 hb']; exact heq
    · simp [SingleChannelSampleFifo.pushNextSampleIntoFifo, hpub]
    · simp only [SingleChannelSampleFifo.pushNextSampleIntoFifo, hpub, hb,
        AudioBuffer.setSample]
      simp
    · simpa using heq

theorem SingleChannelSampleFifo.Staged.step_overflow {B : Nat} {s : SingleChannelSampleFifo α}
    {P : List (List α)} {staged : List α} (h : s.Staged B P staged) (hB : 0 < B)
    (heq : staged.length = B) (hfull : P.length + 1 = Capacity) (x : α) :
    s.publishIfComplete = ({ s with fifoIndex := 0 }, some false) ∧
      (s.pushNextSampleIntoFifo x).Staged B P [x] := by
  have hn := h.numSamples
  have hav := h.numAvailable
  obtain ⟨hi, hc, hP, hidx, rest, hb, hl⟩ := h
  have hrest : rest = [] := by
    apply List.eq_nil_of_length_eq_zero
    simp at hl; omega
  subst hrest
  rw [List.append_nil] at hb
  have he : s.fifoIndex = s.bufferToFill.getNumSamples := by omega
  have h1 := s.audioBufferFifo.push_full hi
    (by rw [SingleChannelSampleFifo.getNumCompleteBuffersAvailable] at hav; omega) s.bufferToFill
  have hpub : s.publishIfComplete = ({ s with fifoIndex := 0 }, some false) := by
    simp only [SingleChannelSampleFifo.publishIfComplete, if_pos he, h1]
  refine ⟨hpub, ?_⟩
  obtain _ | ⟨a, as⟩ := staged
  · simp at heq; omega
  · refine ⟨?_, ?_, hP, ?_, as, ?_, ?_⟩
    · simpa only [SingleChannelSampleFifo.pushNextSampleIntoFifo, hpub] using hi
    · simpa only [SingleChannelSampleFifo.pushNextSampleIntoFifo, hpub] using hc
    · simp [SingleChannelSampleFifo.pushNextSampleIntoFifo, hpub]
    · simp only [SingleChannelSampleFifo.pushNextSampleIntoFifo, hpub, hb,
        AudioBuffer.setSample]
      simp
    · simpa using heq

theorem length_flatten_of_forall {B : Nat} (P : List (List α)) (hP : ∀ b ∈ P, b.length = B) :
    P.flatten.length = P.length * B := by
  induction P with
  | nil => simp
  | cons b P ih =>
    rw [List.flatten_cons, List.length_append, ih (fun c hc => hP c (List.mem_cons_of_mem _ hc)),
      hP b (List.mem_cons_self _ _), List.length_cons, Nat.succ_mul, Nat.add_comm]

theorem block_of_flatten {B : Nat} (P : List (List α)) (hP : ∀ b ∈ P, b.length = B)
    (rest : List α) :
    ∀ j : Nat, j < P.length → P[j]? = some (((P.flatten ++ rest).drop (j * B)).take B) := by
  induction P with
  | nil => intro j hj; simp at hj
  | cons b P ih =>
    intro j hj
    have hb : b.length = B := hP b (List.mem_cons_self _ _)
    cases j with
    | zero =>
      rw [List.getElem?_cons_zero, Nat.zero_mul, List.drop_zero, List.flatten_cons,
        List.append_assoc, List.take_left' hb]
    | succ j =>
      have e : (j + 1) * B = b.length + j * B := by rw [hb, Nat.succ_mul, Nat.add_comm]
      rw [List.getElem?_cons_succ, List.flatten_cons, List.append_assoc, e, List.drop_append]
      exact ih (fun c hc => hP c (List.mem_cons_of_mem _ hc)) j (by simpa using hj)

theorem SingleChannelSampleFifo.Staged.foldl {B : Nat} (hB : 0 < B) (xs : List α) :
    ∀ (s : SingleChannelSampleFifo α) (P : List (List α)) (staged : List α),
      s.Staged B P staged → (P.flatten ++ staged ++ xs).length ≤ Capacity * B →
      ∃ P' staged',
        (xs.foldl SingleChannelSampleFifo.pushNextSampleIntoFifo s).Staged B P' staged' ∧
        P'.flatten ++ staged' = P.flatten ++ staged ++ xs ∧
        (staged ≠ [] ∨ xs ≠ [] → staged' ≠ []) := by
  induction xs with
  | nil =>
    intro s P staged h _
    exact ⟨P, staged, h, by simp, fun h => h.elim id (fun h => absurd rfl h)⟩
  | cons x xs ih =>
    intro s P staged h htot
    have hlenP := length_flatten_of_forall P h.2.2.1
    have hle : staged.length ≤ B := by
      obtain ⟨_, _, _, _, rest, _, hl⟩ := h
      rw [List.length_append] at hl; omega
    rcases Nat.lt_or_ge staged.length B with hlt | hge
    · obtain ⟨P', staged', h1, h2, h3⟩ := ih _ P (staged ++ [x]) (h.step_write hlt x)
        (by simpa using htot)
      exact ⟨P', staged', h1, by simpa using h2, fun _ => h3 (Or.inl (by simp))⟩
    · have heq : staged.length = B := by omega
      have hfree : P.length + 1 < Capacity := by
        have h5 : (P.length + 1) * B < Capacity * B := by
          simp only [List.length_append, List.length_cons, hlenP, heq] at htot
          rw [Nat.succ_mul]; omega
        exact Nat.lt_of_mul_lt_mul_right h5
      obtain ⟨P', staged', h1, h2, h3⟩ := ih _ (P ++ [staged]) [x] (h.step_publish hB heq hfree x)
        (by simpa using htot)
      exact ⟨P', staged', h1, by simpa using h2, fun _ => h3 (Or.inl (by simp))⟩

theorem SingleChannelSampleFifo.channelToUse_pushNextSampleIntoFifo
    (s : SingleChannelSampleFifo α) (x : α) :
    (s.pushNextSampleIntoFifo x).channelToUse = s.channelToUse := by
  simp only [SingleChannelSampleFifo.pushNextSampleIntoFifo,
    SingleChannelSampleFifo.publishIfComplete]
  split <;> rfl

theorem SingleChannelSampleFifo.channelToUse_foldl (xs : List α) :
    ∀ s : SingleChannelSampleFifo α,
      (xs.foldl SingleChannelSampleFifo.pushNextSampleIntoFifo s).channelToUse
        = s.channelToUse := by
  induction xs with
  | nil => intro s; rfl
  | cons x xs ih =>
    intro s
    rw [List.foldl_cons, ih, SingleChannelSampleFifo.channelToUse_pushNextSampleIntoFifo]

theorem SingleChannelSampleFifo.updateAll_eq_foldl (buffers : List (AudioBuffer α)) :
    ∀ s : SingleChannelSampleFifo α,
      s.updateAll buffers
        = (channelSamples s.channelToUse.toNat buffers).foldl
            SingleChannelSampleFifo.pushNextSampleIntoFifo s := by
  induction buffers with
  | nil => intro s; rfl
  | cons b bs ih =>
    intro s
    have e : (s.update b).channelToUse = s.channelToUse :=
      SingleChannelSampleFifo.channelToUse_foldl _ s
    simp only [SingleChannelSampleFifo.updateAll, List.foldl_cons] at ih ⊢
    rw [ih, e]
    simp only [channelSamples, List.map_cons, List.flatten_cons, List.foldl_append]
    rfl

theorem SingleChannelSampleFifo.updateAll_staged [Zero α] (ch : Channel) {B : Nat} (hB : 0 < B)
    (buffers : List (AudioBuffer α))
    (hcap : (channelSamples ch.toNat buffers).length ≤ Capacity * B) :
    ∃ P staged,
      (((SingleChannelSampleFifo.init ch : SingleChannelSampleFifo α).prepare B).updateAll
        buffers).Staged B P staged ∧
      P.flatten ++ staged = channelSamples ch.toNat buffers ∧
      (channelSamples ch.toNat buffers ≠ [] → staged ≠ []) := by
  rw [SingleChannelSampleFifo.updateAll_eq_foldl]
  have e : ((SingleChannelSampleFifo.init ch : SingleChannelSampleFifo α).prepare B).channelToUse
      = ch := rfl
  rw [e]
  obtain ⟨P, staged, h1, h2, h3⟩ := SingleChannelSampleFifo.Staged.foldl hB
    (channelSamples ch.toNat buffers) _ [] [] (SingleChannelSampleFifo.prepare_staged ch B)
    (by simpa using hcap)
  exact ⟨P, staged, h1, by simpa using h2, fun h => h3 (Or.inr h)⟩

theorem Fifo.drain_contents (fuel : Nat) :
    ∀ (f : Fifo T) (t : T), f.Inv → f.contents.length < fuel →
      (f.drain t fuel).2 = f.contents ∧ (f.drain t fuel).1.getNumAvailableForReading = 0 := by
  induction fuel with
  | zero => intro f t _ h; omega
  | succ fuel ih =>
    intro f t hi hlen
    rcases Nat.eq_zero_or_pos f.getNumAvailableForReading with h0 | h0
    · have hp := f.pull_empty hi h0 t
      have hc : f.contents = [] := by
        apply List.eq_nil_of_length_eq_zero
        rw [f.contents_length hi, h0]
      simp [Fifo.drain, hp, hc, h0]
    · obtain ⟨b, h1, h2, h3, h4⟩ := f.pull_nonempty hi h0 t
      have hlen2 : (f.pull t).1.contents.length < fuel := by
        rw [h1, List.length_cons] at hlen; omega
      obtain ⟨ih1, ih2⟩ := ih (f.pull t).1 b h3 hlen2
      have e1 : (f.pull t).2.1 = b := by rw [h2]
      have e2 : (f.pull t).2.2 = true := by rw [h2]
      simp only [Fifo.drain, e1, e2, if_true]
      exact ⟨by rw [ih1, h1], ih2⟩

theorem SingleChannelSampleFifo.drain_eq (fuel : Nat) :
    ∀ (s : SingleChannelSampleFifo α) (buf : AudioBuffer α),
      (s.drain buf fuel).2 = (s.audioBufferFifo.drain buf fuel).2 ∧
      (s.drain buf fuel).1.audioBufferFifo = (s.audioBufferFifo.drain buf fuel).1 := by
  induction fuel with
  | zero => intro s buf; exact ⟨rfl, rfl⟩
  | succ fuel ih =>
    intro s buf
    simp only [SingleChannelSampleFifo.drain, Fifo.drain,
      SingleChannelSampleFifo.getAudioBuffer]
    split
    · obtain ⟨h1, h2⟩ := ih { s with audioBufferFifo := (s.audioBufferFifo.pull buf).1 }
        (s.audioBufferFifo.pull buf).2.1
      exact ⟨by rw [h1], h2⟩
    · exact ⟨rfl, rfl⟩

theorem blocks_eq_range_map {B : Nat} (P : List (List α)) (hP : ∀ b ∈ P, b.length = B)
    (rest : List α) :
    P = (List.range P.length).map fun j => ((P.flatten ++ rest).drop (j * B)).take B := by
  apply List.ext_getElem?
  intro j
  rcases Nat.lt_or_ge j P.length with hj | hj
  · rw [block_of_flatten P hP rest j hj, List.getElem?_map, List.getElem?_range hj]
    rfl
  · rw [List.getElem?_eq_none hj, List.getElem?_eq_none (by simpa using hj)]

/-- C3 (amended): after `prepare (B)` on a new accumulator, `B > 0`, and `update` calls
that feed `N * B` samples in all, `N ≤ Capacity`, exactly `N - 1` blocks are available
(none when `N = 0`); `getAudioBuffer` hands them out in arrival order, the `j`-th holding
samples `j * B .. j * B + B - 1`; and for `N > 0` the last `B` samples sit in the staging
block, complete but not pushed. -/
theorem update_publishes_all_but_last_block [Zero α] (ch : Channel) (B N : Nat) (hB : 0 < B)
    (hN : N ≤ Capacity) (buffers : List (AudioBuffer α)) (buf : AudioBuffer α)
    (hlen : (channelSamples ch.toNat buffers).length = N * B) :
    (((SingleChannelSampleFifo.init ch : SingleChannelSampleFifo α).prepare B).updateAll
        buffers).getNumCompleteBuffersAvailable = N - 1 ∧
      ((((SingleChannelSampleFifo.init ch : SingleChannelSampleFifo α).prepare B).updateAll
        buffers).drain buf Capacity).2
        = (List.range (N - 1)).map (fun j =>
            [((channelSamples ch.toNat buffers).drop (j * B)).take B]) ∧
      (0 < N →
        (((SingleChannelSampleFifo.init ch : SingleChannelSampleFifo α).prepare B).updateAll
          buffers).bufferToFill = [(channelSamples ch.toNat buffers).drop ((N - 1) * B)] ∧
        (((SingleChannelSampleFifo.init ch : SingleChannelSampleFifo α).prepare B).updateAll
          buffers).fifoIndex = B) := by
  obtain ⟨P, staged, hst, hxs, hne⟩ := SingleChannelSampleFifo.updateAll_staged ch hB buffers
    (by rw [hlen]; exact Nat.mul_le_mul_right B hN)
  generalize ((SingleChannelSampleFifo.init ch : SingleChannelSampleFifo α).prepare B).updateAll
    buffers = s at hst
  generalize channelSamples ch.toNat buffers = xs at hlen hxs hne
  have hav := hst.numAvailable
  have hPl := length_flatten_of_forall P hst.2.2.1
  obtain ⟨hi, hc, hP, hidx, rest, hb, hl⟩ := hst
  have htot : P.length * B + staged.length = N * B := by
    rw [← hlen, ← hxs, List.length_append, hPl]
  have hsl : staged.length ≤ B := by rw [List.length_append] at hl; omega
  have hPN : P.length = N - 1 ∧ (0 < N → staged.length = B) := by
    rcases Nat.eq_zero_or_pos N with h0 | h0
    · subst h0
      rw [Nat.zero_mul] at htot
      have h1 : P.length * B = 0 := by omega
      rcases Nat.mul_eq_zero.1 h1 with h2 | h2
      · exact ⟨by omega, fun h => absurd h (Nat.lt_irrefl 0)⟩
      · omega
    · have hx : xs ≠ [] := by
        intro h
        rw [h, List.length_nil] at hlen
        have := Nat.mul_pos h0 hB
        omega
      have hs1 : 0 < staged.length := List.length_pos.2 (hne hx)
      have h1 : P.length < N := by
        by_contra hcon
        have := Nat.mul_le_mul_right B (Nat.le_of_not_lt hcon)
        omega
      have h2 : N ≤ P.length + 1 := by
        by_contra hcon
        have := Nat.mul_le_mul_right B (Nat.lt_of_not_le hcon)
        rw [Nat.succ_mul, Nat.succ_mul] at this
        omega
      have h3 : N = P.length + 1 := by omega
      refine ⟨by omega, fun _ => ?_⟩
      rw [h3, Nat.succ_mul] at htot
      omega
  obtain ⟨hPN1, hPN2⟩ := hPN
  refine ⟨by rw [hav, hPN1], ?_, ?_⟩
  · have hd := Fifo.drain_contents Capacity s.audioBufferFifo buf hi
      (by rw [hc, List.length_map, hPN1]; have hC : Capacity = 30 := rfl; omega)
    rw [(SingleChannelSampleFifo.drain_eq Capacity s buf).1, hd.1, hc, ← hPN1, ← hxs]
    conv_lhs => rw [blocks_eq_range_map P hP staged]
    rw [List.map_map]
    rfl
  · intro h0
    have hs := hPN2 h0
    have hrest : rest = [] := by
      apply List.eq_nil_of_length_eq_zero
      rw [List.length_append] at hl; omega
    subst hrest
    rw [List.append_nil] at hb
    refine ⟨?_, by rw [hidx, hs]⟩
    rw [hb, ← hxs, ← hPN1, List.drop_left' hPl]

/-! ### The two chains -/

theorem SimpleEQAudioProcessor.updateFilters_result (D : FilterDesign C)
    (p : SimpleEQAudioProcessor C S α)
    (hlow : (getChainSettings p.apvts).lowCutSlope.toNat
      < (makeLowCutFilter D (getChainSettings p.apvts) p.sampleRate).length)
    (hhigh : (getChainSettings p.apvts).highCutSlope.toNat
      < (makeHighCutFilter D (getChainSettings p.apvts) p.sampleRate).length) :
    ∃ leftLowCut rightLowCut leftHighCut rightHighCut,
      updateCutFilter p.leftChain.lowCut
        (makeLowCutFilter D (getChainSettings p.apvts) p.sampleRate)
        (getChainSettings p.apvts).lowCutSlope = some leftLowCut ∧
      updateCutFilter p.rightChain.lowCut
        (makeLowCutFilter D (getChainSettings p.apvts) p.sampleRate)
        (getChainSettings p.apvts).lowCutSlope = some rightLowCut ∧
      updateCutFilter p.leftChain.highCut
        (makeHighCutFilter D (getChainSettings p.apvts) p.sampleRate)
        (getChainSettings p.apvts).highCutSlope = some leftHighCut ∧
      updateCutFilter p.rightChain.highCut
        (makeHighCutFilter D (getChainSettings p.apvts) p.sampleRate)
        (getChainSettings p.apvts).highCutSlope = some rightHighCut ∧
      p.updateFilters D = some { p with
        leftChain :=
          { lowCut := leftLowCut
            peak := { p.leftChain.peak with
              coefficients := makePeakFilter D (getChainSettings p.apvts) p.sampleRate }
            highCut := leftHighCut
            bypassedLowCut := (getChainSettings p.apvts).lowCutBypassed
            bypassedPeak := (getChainSettings p.apvts).peakBypassed
            bypassedHighCut := (getChainSettings p.apvts).highCutBypassed }
        rightChain :=
          { lowCut := rightLowCut
            peak := { p.rightChain.peak with
              coefficients := makePeakFilter D (getChainSettings p.apvts) p.sampleRate }
            highCut := rightHighCut
            bypassedLowCut := (getChainSettings p.apvts).lowCutBypassed
            bypassedPeak := (getChainSettings p.apvts).peakBypassed
            bypassedHighCut := (getChainSettings p.apvts).highCutBypassed } } := by
  obtain ⟨ll, hll, -⟩ := updateCutFilter_result p.leftChain.lowCut _ _ hlow
  obtain ⟨rl, hrl, -⟩ := updateCutFilter_result p.rightChain.lowCut _ _ hlow
  obtain ⟨lh, hlh, -⟩ := updateCutFilter_result p.leftChain.highCut _ _ hhigh
  obtain ⟨rh, hrh, -⟩ := updateCutFilter_result p.rightChain.highCut _ _ hhigh
  refine ⟨ll, rl, lh, rh, hll, hrl, hlh, hrh, ?_⟩
  simp only [SimpleEQAudioProcessor.updateFilters, SimpleEQAudioProcessor.updateLowCutFilters,
    SimpleEQAudioProcessor.updatePeakFilter, SimpleEQAudioProcessor.updateHighCutFilters,
    MonoChain.setBypassed, hll, hrl, hlh, hrh, Option.some_bind]

/-- C6 (as stated, refuted): with a cutoff of 20000 Hz at a sample rate of 32000 Hz, so
at or above half the sample rate, the frequency that `makeLowCutFilter` and
`makeHighCutFilter` hand to the Butterworth design is 20000 itself. -/
theorem makeCutFilter_cutoff_not_clamped :
    makeLowCutFilter recordingDesign
        { exampleSettings with lowCutFreq := 20000 } 32000 = [(20000, 32000, 2)] ∧
      makeHighCutFilter recordingDesign
        { exampleSettings with highCutFreq := 20000 } 32000 = [(20000, 32000, 2)] ∧
      ¬ ((20000 : ℚ) < 32000 / 2) := by
  refine ⟨rfl, rfl, ?_⟩
  norm_num

/-- C6 (amended): for every cutoff frequency, sample rate and slope, whatever design
functions are used, `makeLowCutFilter` and `makeHighCutFilter` call the Butterworth
design with the cutoff frequency of the settings unchanged, the sample rate unchanged
and the order `2 * (slope + 1)`; the recorded frequency of every section designed is the
cutoff of the settings. -/
theorem makeCutFilter_passes_cutoff_unchanged (D : FilterDesign C)
    (chainSettings : ChainSettings) (sampleRate : ℚ) :
    makeLowCutFilter D chainSettings sampleRate
        = D.designIIRHighpassHighOrderButterworthMethod chainSettings.lowCutFreq sampleRate
            (2 * (chainSettings.lowCutSlope.toNat + 1)) ∧
      makeHighCutFilter D chainSettings sampleRate
        = D.designIIRLowpassHighOrderButterworthMethod chainSettings.highCutFreq sampleRate
            (2 * (chainSettings.highCutSlope.toNat + 1)) ∧
      makeLowCutFilter recordingDesign chainSettings sampleRate
        = List.replicate (chainSettings.lowCutSlope.toNat + 1)
            (chainSettings.lowCutFreq, sampleRate, 2 * (chainSettings.lowCutSlope.toNat + 1)) ∧
      makeHighCutFilter recordingDesign chainSettings sampleRate
        = List.replicate (chainSettings.highCutSlope.toNat + 1)
            (chainSettings.highCutFreq, sampleRate, 2 * (chainSettings.highCutSlope.toNat + 1)) := by
  refine ⟨rfl, rfl, ?_, ?_⟩
  · simp [makeLowCutFilter, recordingDesign]
  · simp [makeHighCutFilter, recordingDesign]

/-- C7: for every parameter snapshot and every prior state of the two chains, when the
two Butterworth designs return at least `slope + 1` sections, `updateFilters` returns a
state in which `leftChain` and `rightChain` have the same three stage flags, the same
section flags in both cut stages, the peak coefficients computed from the one snapshot
`getChainSettings apvts`, and in every active cut section the coefficients that the
design for that snapshot holds at the section's index. -/
theorem updateFilters_chains_agree (D : FilterDesign C) (p : SimpleEQAudioProcessor C S α)
    (hlow : (getChainSettings p.apvts).lowCutSlope.toNat
      < (makeLowCutFilter D (getChainSettings p.apvts) p.sampleRate).length)
    (hhigh : (getChainSettings p.apvts).highCutSlope.toNat
      < (makeHighCutFilter D (getChainSettings p.apvts) p.sampleRate).length) :
    ∃ p', p.updateFilters D = some p' ∧
      (∀ position, p'.leftChain.isBypassed position = p'.rightChain.isBypassed position) ∧
      (∀ i, p'.leftChain.lowCut.isBypassed i = p'.rightChain.lowCut.isBypassed i) ∧
      (∀ i, p'.leftChain.highCut.isBypassed i = p'.rightChain.highCut.isBypassed i) ∧
      p'.leftChain.peak.coefficients
        = makePeakFilter D (getChainSettings p.apvts) p.sampleRate ∧
      p'.rightChain.peak.coefficients
        = makePeakFilter D (getChainSettings p.apvts) p.sampleRate ∧
      (∀ i : Fin 4, p'.leftChain.lowCut.isBypassed i = false →
        some (p'.leftChain.lowCut.get i).coefficients
          = (makeLowCutFilter D (getChainSettings p.apvts) p.sampleRate)[i.val]? ∧
        (p'.rightChain.lowCut.get i).coefficients = (p'.leftChain.lowCut.get i).coefficients) ∧
      (∀ i : Fin 4, p'.leftChain.highCut.isBypassed i = false →
        some (p'.leftChain.highCut.get i).coefficients
          = (makeHighCutFilter D (getChainSettings p.apvts) p.sampleRate)[i.val]? ∧
        (p'.rightChain.highCut.get i).coefficients
          = (p'.leftChain.highCut.get i).coefficients) := by
  obtain ⟨ll, rl, lh, rh, hll, hrl, hlh, hrh, hp⟩ := p.updateFilters_result D hlow hhigh
  obtain ⟨ll', hll', bll, cll, -, -⟩ := updateCutFilter_result p.leftChain.lowCut _ _ hlow
  obtain ⟨rl', hrl', brl, crl, -, -⟩ := updateCutFilter_result p.rightChain.lowCut _ _ hlow
  obtain ⟨lh', hlh', blh, clh, -, -⟩ := updateCutFilter_result p.leftChain.highCut _ _ hhigh
  obtain ⟨rh', hrh', brh, crh, -, -⟩ := updateCutFilter_result p.rightChain.highCut _ _ hhigh
  obtain rfl : ll' = ll := Option.some.inj (hll'.symm.trans hll)
  obtain rfl : rl' = rl := Option.some.inj (hrl'.symm.trans hrl)
  obtain rfl : lh' = lh := Option.some.inj (hlh'.symm.trans hlh)
  obtain rfl : rh' = rh := Option.some.inj (hrh'.symm.trans hrh)
  refine ⟨_, hp, ?_, ?_, ?_, rfl, rfl, ?_, ?_⟩
  · intro position
    cases position <;> rfl
  · intro i
    show ll'.isBypassed i = rl'.isBypassed i
    rw [bll, brl]
  · intro i
    show lh'.isBypassed i = rh'.isBypassed i
    rw [blh, brh]
  · intro i hi
    have hi' : ll'.isBypassed i = false := hi
    have hle : i.val ≤ (getChainSettings p.apvts).lowCutSlope.toNat := by
      rw [bll] at hi'
      simpa using hi'
    refine ⟨cll i hle, ?_⟩
    show (rl'.get i).coefficients = (ll'.get i).coefficients
    exact Option.some.inj ((crl i hle).trans (cll i hle).symm)
  · intro i hi
    have hi' : lh'.isBypassed i = false := hi
    have hle : i.val ≤ (getChainSettings p.apvts).highCutSlope.toNat := by
      rw [blh] at hi'
      simpa using hi'
    refine ⟨clh i hle, ?_⟩
    show (rh'.get i).coefficients = (lh'.get i).coefficients
    exact Option.some.inj ((crh i hle).trans (clh i hle).symm)

/-- C8: for every snapshot and every prior state, when the two Butterworth designs return
at least `slope + 1` sections, `updateFilters` returns a state in which, on each of the
two chains, the stage flags of `LowCut`, `Peak` and `HighCut` are `lowCutBypassed`,
`peakBypassed` and `highCutBypassed` of the snapshot: the section flags that
`updateCutFilter` sets inside a cut stage leave the stage flags alone. -/
theorem updateFilters_stage_flags (D : FilterDesign C) (p : SimpleEQAudioProcessor C S α)
    (hlow : (getChainSettings p.apvts).lowCutSlope.toNat
      < (makeLowCutFilter D (getChainSettings p.apvts) p.sampleRate).length)
    (hhigh : (getChainSettings p.apvts).highCutSlope.toNat
      < (makeHighCutFilter D (getChainSettings p.apvts) p.sampleRate).length) :
    ∃ p', p.updateFilters D = some p' ∧
      p'.leftChain.isBypassed ChainPositions.LowCut
        = (getChainSettings p.apvts).lowCutBypassed ∧
      p'.leftChain.isBypassed ChainPositions.Peak
        = (getChainSettings p.apvts).peakBypassed ∧
      p'.leftChain.isBypassed ChainPositions.HighCut
        = (getChainSettings p.apvts).highCutBypassed ∧
      p'.rightChain.isBypassed ChainPositions.LowCut
        = (getChainSettings p.apvts).lowCutBypassed ∧
      p'.rightChain.isBypassed ChainPositions.Peak
        = (getChainSettings p.apvts).peakBypassed ∧
      p'.rightChain.isBypassed ChainPositions.HighCut
        = (getChainSettings p.apvts).highCutBypassed := by
  obtain ⟨ll, rl, lh, rh, -, -, -, -, hp⟩ := p.updateFilters_result D hlow hhigh
  exact ⟨_, hp, rfl, rfl, rfl, rfl, rfl, rfl⟩

theorem MonoChain.process_all_bypassed (step : C → S → α → S × α) (chain : MonoChain C S)
    (h1 : chain.bypassedLowCut = true) (h2 : chain.bypassedPeak = true)
    (h3 : chain.bypassedHighCut = true) (block : List α) :
    chain.process step block = (chain, block) := by
  induction block with
  | nil => rfl
  | cons x xs ih =>
    have e : chain.processSample step x = (chain, x) := by
      simp [MonoChain.processSample, MonoChain.processStage, h1, h2, h3]
    simp only [MonoChain.process, e, ih]

/-- C9: for every behaviour `step` of an active section, every state of a `MonoChain`
(whatever the section flags and coefficients inside its stages) and every sample, a
stage whose stage flag is set returns the sample unchanged and leaves the chain as it
was; with the three stage flags set, the chain returns every sample and every block
unchanged. -/
theorem stage_bypass_dominance (step : C → S → α → S × α) (chain : MonoChain C S) :
    (∀ position x, chain.isBypassed position = true →
      chain.processStage step position x = (chain, x)) ∧
    (chain.isBypassed ChainPositions.LowCut = true →
      chain.isBypassed ChainPositions.Peak = true →
      chain.isBypassed ChainPositions.HighCut = true →
      (∀ x, chain.processSample step x = (chain, x)) ∧
      (∀ block, chain.process step block = (chain, block))) := by
  refine ⟨?_, ?_⟩
  · intro position x h
    cases position <;> simp only [MonoChain.isBypassed] at h <;>
      simp [MonoChain.processStage, h]
  · intro h1 h2 h3
    simp only [MonoChain.isBypassed] at h1 h2 h3
    refine ⟨fun x => ?_, fun block => chain.process_all_bypassed step h1 h2 h3 block⟩
    simp [MonoChain.processSample, MonoChain.processStage, h1, h2, h3]

/-! ### Claims on the capture FIFO and the block accumulator -/

set_option maxRecDepth 100000

/-- C2 (as stated, refuted): of 31 items pushed into a new `Fifo`, it is not the case
that the first 30 are accepted and only the 31st refused: the flags returned are not
thirty times true followed by false. -/
theorem Fifo_thirtieth_push_refused :
    ((Fifo.init 0).pushAll (List.range 31)).2 ≠ List.replicate 30 true ++ [false] := by
  decide

/-- C2 (amended): of the items 0..30 pushed into a new `Fifo`, the first 29 are accepted
and the 30th and 31st refused; draining then hands out exactly 0..28 in push order; and
after one successful `pull` from the full queue a further `push` succeeds. -/
theorem Fifo_holds_twenty_nine :
    ((Fifo.init 0).pushAll (List.range 31)).2 = List.replicate 29 true ++ [false, false] ∧
      (((Fifo.init 0).pushAll (List.range 31)).1.drain 0 Capacity).2 = List.range 29 ∧
      (((Fifo.init 0).pushAll (List.range 31)).1.pull 0).2 = (0, true) ∧
      ((((Fifo.init 0).pushAll (List.range 31)).1.pull 0).1.push 31).2 = true := by
  decide

/-- C3 (as stated, refuted): with block size 2, feeding 2 * 2 samples to a newly prepared
accumulator leaves one block available, not two. -/
theorem update_two_blocks_one_available :
    (((SingleChannelSampleFifo.init Channel.Right : SingleChannelSampleFifo Nat).prepare 2).updateAll
        [[[1, 2, 3, 4]]]).getNumCompleteBuffersAvailable = 1 ∧
      (((SingleChannelSampleFifo.init Channel.Right : SingleChannelSampleFifo Nat).prepare 2).updateAll
        [[[1, 2, 3, 4]]]).getNumCompleteBuffersAvailable ≠ 2 := by
  decide

/-- C5: when the staging block is complete (`fifoIndex` has reached its size) and the
`Fifo` is full, the next `pushNextSampleIntoFifo` has its `push` refused, the `Fifo` is
left exactly as it was (same blocks, same order, same count), and the write index is set
to 0, so that the new sample is written at index 0 and the index is 1 afterwards. -/
theorem pushNextSampleIntoFifo_full_drops_newest (s : SingleChannelSampleFifo α) (x : α)
    (hinv : s.audioBufferFifo.Inv)
    (hcomplete : s.fifoIndex = s.bufferToFill.getNumSamples)
    (hfull : s.getNumCompleteBuffersAvailable + 1 = Capacity) :
    s.publishIfComplete.2 = some false ∧
      s.publishIfComplete.1.fifoIndex = 0 ∧
      (s.pushNextSampleIntoFifo x).audioBufferFifo = s.audioBufferFifo ∧
      (s.pushNextSampleIntoFifo x).audioBufferFifo.contents = s.audioBufferFifo.contents ∧
      (s.pushNextSampleIntoFifo x).getNumCompleteBuffersAvailable
        = s.getNumCompleteBuffersAvailable ∧
      (s.pushNextSampleIntoFifo x).bufferToFill = s.bufferToFill.setSample 0 0 x ∧
      (s.pushNextSampleIntoFifo x).fifoIndex = 1 := by
  have h1 := s.audioBufferFifo.push_full hinv hfull s.bufferToFill
  have hpub : s.publishIfComplete = ({ s with fifoIndex := 0 }, some false) := by
    simp only [SingleChannelSampleFifo.publishIfComplete, if_pos hcomplete, h1]
  simp [SingleChannelSampleFifo.pushNextSampleIntoFifo, hpub,
    SingleChannelSampleFifo.getNumCompleteBuffersAvailable]

/-- C4 (evaluation at the failing input): after `prepareToPlay` with blocks of one
sample, `processBlock` on a buffer holding 1 in channel 0 and 2 in channel 1, the peak
stage adding 10, leaves 11 (the output of `leftChain`) in channel 0 and 12 (the output
of `rightChain`) in channel 1; `leftChannelFifo` has been fed 12 and `rightChannelFifo`
11. -/
theorem processBlock_accumulators_swapped :
    (((SimpleEQAudioProcessor.new exampleParameters 44100 exampleChain :
          SimpleEQAudioProcessor Nat Unit Nat).prepareToPlay exampleDesign 1).bind
        fun p => (p.processBlock exampleDesign exampleStep [[1], [2]]).map
          fun r => (r.2, r.1.leftChannelFifo.bufferToFill, r.1.rightChannelFifo.bufferToFill))
      = some ([[11], [12]], [[12]], [[11]]) := by
  decide

/-! ### Design order and the coefficients stored by `updateCutFilter` -/

theorem Slope.order_mem (slope : Slope) : 2 * (slope.toNat + 1) ∈ [2, 4, 6, 8] := by
  cases slope <;> simp [Slope.toNat]

theorem updateCutFilter_stores (chain : CutFilter C S) (coefficients : List C) (slope : Slope)
    (hlen : coefficients.length = slope.toNat + 1) :
    ∃ chain', updateCutFilter chain coefficients slope = some chain' ∧
      (∀ i : Fin 4, i.val ≤ slope.toNat →
        i.val < coefficients.length ∧
        some (chain'.get i).coefficients = coefficients[i.val]?) ∧
      (∀ i : Fin 4, slope.toNat < i.val →
        (chain'.get i).coefficients = (chain.get i).coefficients) := by
  obtain ⟨chain', h1, -, h3, h4, -⟩ := updateCutFilter_result chain coefficients slope (by omega)
  exact ⟨chain', h1, fun i hi => ⟨by omega, h3 i hi⟩, h4⟩

/-- C11: for every slope level `L`, `makeLowCutFilter` and `makeHighCutFilter` ask the
Butterworth design for order `2 * (L + 1)`, one of 2, 4, 6, 8; when the design returns
`order / 2` sections the sequence has `L + 1` elements, and `updateCutFilter` with that
sequence returns a chain in which, for every `i ≤ L`, index `i` lies inside the sequence
and section `i` holds `coefficients[i]`, while the coefficients of the sections `i > L`
are those of the chain before the call. -/
theorem cut_design_order_and_stored_coefficients (D : FilterDesign C)
    (chainSettings : ChainSettings) (sampleRate : ℚ) (chain : CutFilter C S)
    (hHP : ∀ f r n, (D.designIIRHighpassHighOrderButterworthMethod f r n).length = n / 2)
    (hLP : ∀ f r n, (D.designIIRLowpassHighOrderButterworthMethod f r n).length = n / 2) :
    (makeLowCutFilter D chainSettings sampleRate
        = D.designIIRHighpassHighOrderButterworthMethod chainSettings.lowCutFreq sampleRate
            (2 * (chainSettings.lowCutSlope.toNat + 1)) ∧
      2 * (chainSettings.lowCutSlope.toNat + 1) ∈ [2, 4, 6, 8] ∧
      (makeLowCutFilter D chainSettings sampleRate).length
        = chainSettings.lowCutSlope.toNat + 1 ∧
      ∃ chain', updateCutFilter chain (makeLowCutFilter D chainSettings sampleRate)
          chainSettings.lowCutSlope = some chain' ∧
        (∀ i : Fin 4, i.val ≤ chainSettings.lowCutSlope.toNat →
          i.val < (makeLowCutFilter D chainSettings sampleRate).length ∧
          some (chain'.get i).coefficients
            = (makeLowCutFilter D chainSettings sampleRate)[i.val]?) ∧
        (∀ i : Fin 4, chainSettings.lowCutSlope.toNat < i.val →
          (chain'.get i).coefficients = (chain.get i).coefficients)) ∧
    (makeHighCutFilter D chainSettings sampleRate
        = D.designIIRLowpassHighOrderButterworthMethod chainSettings.highCutFreq sampleRate
            (2 * (chainSettings.highCutSlope.toNat + 1)) ∧
      2 * (chainSettings.highCutSlope.toNat + 1) ∈ [2, 4, 6, 8] ∧
      (makeHighCutFilter D chainSettings sampleRate).length
        = chainSettings.highCutSlope.toNat + 1 ∧
      ∃ chain', updateCutFilter chain (makeHighCutFilter D chainSettings sampleRate)
          chainSettings.highCutSlope = some chain' ∧
        (∀ i : Fin 4, i.val ≤ chainSettings.highCutSlope.toNat →
          i.val < (makeHighCutFilter D chainSettings sampleRate).length ∧
          some (chain'.get i).coefficients
            = (makeHighCutFilter D chainSettings sampleRate)[i.val]?) ∧
        (∀ i : Fin 4, chainSettings.highCutSlope.toNat < i.val →
          (chain'.get i).coefficients = (chain.get i).coefficients)) := by
  have hlow : (makeLowCutFilter D chainSettings sampleRate).length
      = chainSettings.lowCutSlope.toNat + 1 := by
    rw [makeLowCutFilter, hHP, Nat.mul_div_cancel_left _ (by decide : 0 < 2)]
  have hhigh : (makeHighCutFilter D chainSettings sampleRate).length
      = chainSettings.highCutSlope.toNat + 1 := by
    rw [makeHighCutFilter, hLP, Nat.mul_div_cancel_left _ (by decide : 0 < 2)]
  exact ⟨⟨rfl, chainSettings.lowCutSlope.order_mem, hlow,
      updateCutFilter_stores chain _ _ hlow⟩,
    ⟨rfl, chainSettings.highCutSlope.order_mem, hhigh,
      updateCutFilter_stores chain _ _ hhigh⟩⟩

/-! ### The write index of the block accumulator -/

theorem AudioBuffer.getNumSamples_setSample (buffer : AudioBuffer α) (i : Nat) (x : α) :
    (buffer.setSample 0 i x).getNumSamples = buffer.getNumSamples := by
  cases buffer with
  | nil => rfl
  | cons c rest => simp [AudioBuffer.setSample, AudioBuffer.getNumSamples]

theorem SingleChannelSampleFifo.publishIfComplete_index {B : Nat} (hB : 0 < B)
    (s : SingleChannelSampleFifo α) (h : s.IndexInv B) :
    s.publishIfComplete.1.fifoIndex < B ∧
      s.publishIfComplete.1.bufferToFill = s.bufferToFill := by
  obtain ⟨h1, h2⟩ := h
  simp only [SingleChannelSampleFifo.publishIfComplete]
  split
  · exact ⟨hB, rfl⟩
  · refine ⟨?_, rfl⟩
    show s.fifoIndex < B
    omega

theorem SingleChannelSampleFifo.IndexInv.step {B : Nat} (hB : 0 < B)
    (s : SingleChannelSampleFifo α) (h : s.IndexInv B) (x : α) :
    (s.pushNextSampleIntoFifo x).IndexInv B ∧ 1 ≤ (s.pushNextSampleIntoFifo x).fifoIndex := by
  obtain ⟨h3, h4⟩ := s.publishIfComplete_index hB h
  obtain ⟨h1, h2⟩ := h
  refine ⟨⟨?_, ?_⟩, ?_⟩
  · show (s.publishIfComplete.1.bufferToFill.setSample 0 s.publishIfComplete.1.fifoIndex
      x).getNumSamples = B
    rw [AudioBuffer.getNumSamples_setSample, h4, h1]
  · show s.publishIfComplete.1.fifoIndex + 1 ≤ B
    omega
  · show 1 ≤ s.publishIfComplete.1.fifoIndex + 1
    omega

theorem SingleChannelSampleFifo.IndexInv.foldl_pushNextSample {B : Nat} (hB : 0 < B) (xs : List α) :
    ∀ s : SingleChannelSampleFifo α, s.IndexInv B →
      (xs.foldl SingleChannelSampleFifo.pushNextSampleIntoFifo s).IndexInv B ∧
      (xs ≠ [] → 1 ≤ (xs.foldl SingleChannelSampleFifo.pushNextSampleIntoFifo s).fifoIndex) := by
  induction xs with
  | nil => intro s h; exact ⟨h, fun h0 => absurd rfl h0⟩
  | cons x xs ih =>
    intro s h
    obtain ⟨h1, h2⟩ := SingleChannelSampleFifo.IndexInv.step hB s h x
    obtain ⟨h3, h4⟩ := ih _ h1
    refine ⟨h3, fun _ => ?_⟩
    rcases xs with _ | ⟨y, ys⟩
    · exact h2
    · exact h4 (by simp)

theorem SingleChannelSampleFifo.prepare_indexInv [Zero α] (ch : Channel) (B : Nat) :
    ((SingleChannelSampleFifo.init ch : SingleChannelSampleFifo α).prepare B).IndexInv B := by
  refine ⟨?_, Nat.zero_le B⟩
  simp [SingleChannelSampleFifo.prepare, SingleChannelSampleFifo.init, AudioBuffer.setSize,
    AudioBuffer.getNumSamples]

theorem SingleChannelSampleFifo.prepare_staging [Zero α] (s0 : SingleChannelSampleFifo α)
    (B : Nat) : ∃ c : List α, (s0.prepare B).bufferToFill = [c] ∧ c.length = B := by
  show ∃ c : List α, s0.bufferToFill.setSize 1 B = [c] ∧ c.length = B
  unfold AudioBuffer.setSize
  split
  · rename_i h
    obtain ⟨h1, h2⟩ := h
    obtain ⟨c, hc⟩ := List.length_eq_one.1 h1
    rw [hc] at h2
    exact ⟨c, hc, h2⟩
  · exact ⟨List.replicate B 0, rfl, by simp⟩

theorem SingleChannelSampleFifo.prepare_indexInv_of_any [Zero α]
    (s0 : SingleChannelSampleFifo α) (B : Nat) : (s0.prepare B).IndexInv B := by
  obtain ⟨c, h1, h2⟩ := s0.prepare_staging B
  refine ⟨?_, Nat.zero_le B⟩
  rw [h1]
  exact h2

/-- C14: after `prepare (B)`, `B > 0`, on an accumulator in any prior state (new, or used
and prepared again, whatever its write index, staging block and queue were), and any
sequence of `update` calls, however long (so whether or not the pushes to the `Fifo`
succeed), the write index is at most `B`, and at least 1 once a sample has been fed; for
every next sample the write into the staging block, whose size is `B`, happens at an
index below `B`, and the index is between 1 and `B` afterwards. -/
theorem fifoIndex_within_bounds [Zero α] (s0 : SingleChannelSampleFifo α) (B : Nat)
    (hB : 0 < B) (buffers : List (AudioBuffer α)) (x : α) :
    (s0.prepare B).fifoIndex = 0 ∧
      ((s0.prepare B).updateAll buffers).fifoIndex ≤ B ∧
      (channelSamples s0.channelToUse.toNat buffers ≠ [] →
        1 ≤ ((s0.prepare B).updateAll buffers).fifoIndex) ∧
      ((s0.prepare B).updateAll buffers).bufferToFill.getNumSamples = B ∧
      ((s0.prepare B).updateAll buffers).publishIfComplete.1.fifoIndex < B ∧
      (((s0.prepare B).updateAll buffers).pushNextSampleIntoFifo x).bufferToFill
        = ((s0.prepare B).updateAll buffers).bufferToFill.setSample 0
            ((s0.prepare B).updateAll buffers).publishIfComplete.1.fifoIndex x ∧
      1 ≤ (((s0.prepare B).updateAll buffers).pushNextSampleIntoFifo x).fifoIndex ∧
      (((s0.prepare B).updateAll buffers).pushNextSampleIntoFifo x).fifoIndex ≤ B := by
  have e : (s0.prepare B).channelToUse = s0.channelToUse := rfl
  have h := SingleChannelSampleFifo.IndexInv.foldl_pushNextSample hB
    (channelSamples s0.channelToUse.toNat buffers) _ (s0.prepare_indexInv_of_any B)
  have hu := SingleChannelSampleFifo.updateAll_eq_foldl buffers (s0.prepare B)
  rw [e] at hu
  rw [← hu] at h
  refine ⟨rfl, ?_⟩
  generalize (s0.prepare B).updateAll buffers = s at h
  obtain ⟨hinv, hpos⟩ := h
  obtain ⟨h1, h2⟩ := s.publishIfComplete_index hB hinv
  obtain ⟨h3, h4⟩ := SingleChannelSampleFifo.IndexInv.step hB s hinv x
  refine ⟨hinv.2, hpos, hinv.1, h1, ?_, h4, h3.2⟩
  show s.publishIfComplete.1.bufferToFill.setSample 0 s.publishIfComplete.1.fifoIndex x = _
  rw [h2]

/-! ### Blocks published after `prepare` on a used accumulator -/

theorem SingleChannelSampleFifo.pushNextSampleIntoFifo_inv (s : SingleChannelSampleFifo α)
    (x : α) (h : s.audioBufferFifo.Inv) : (s.pushNextSampleIntoFifo x).audioBufferFifo.Inv := by
  simp only [SingleChannelSampleFifo.pushNextSampleIntoFifo,
    SingleChannelSampleFifo.publishIfComplete]
  split
  · have hlt := s.audioBufferFifo.numReady_lt h
    rcases Nat.lt_or_ge (s.audioBufferFifo.getNumAvailableForReading + 1) Capacity with hf | hf
    · exact (s.audioBufferFifo.push_free h hf s.bufferToFill).2.2.1
    · rw [s.audioBufferFifo.push_full h (by omega) s.bufferToFill]
      exact h
  · exact h

theorem SingleChannelSampleFifo.update_inv (buffer : AudioBuffer α) :
    ∀ s : SingleChannelSampleFifo α, s.audioBufferFifo.Inv →
      (s.update buffer).audioBufferFifo.Inv := by
  unfold SingleChannelSampleFifo.update
  intro s
  generalize buffer.getReadPointer s.channelToUse.toNat = xs
  induction xs generalizing s with
  | nil => intro h; exact h
  | cons x xs ih => intro h; exact ih _ (s.pushNextSampleIntoFifo_inv x h)

theorem SingleChannelSampleFifo.getAudioBuffer_inv (s : SingleChannelSampleFifo α)
    (buf : AudioBuffer α) (h : s.audioBufferFifo.Inv) :
    (s.getAudioBuffer buf).1.audioBufferFifo.Inv := by
  show (s.audioBufferFifo.pull buf).1.Inv
  rcases Nat.eq_zero_or_pos s.audioBufferFifo.getNumAvailableForReading with h0 | h0
  · rw [s.audioBufferFifo.pull_empty h h0 buf]
    exact h
  · exact (s.audioBufferFifo.pull_nonempty h h0 buf).choose_spec.2.2.1

theorem SingleChannelSampleFifo.StagedAfter.numSamples_after {B : Nat} {Q : List (AudioBuffer α)}
    {s : SingleChannelSampleFifo α} {P : List (List α)} {staged : List α}
    (h : s.StagedAfter B Q P staged) : s.bufferToFill.getNumSamples = B := by
  obtain ⟨_, _, _, _, rest, hb, hl⟩ := h
  rw [hb]
  exact hl

theorem SingleChannelSampleFifo.StagedAfter.numAvailable_after {B : Nat} {Q : List (AudioBuffer α)}
    {s : SingleChannelSampleFifo α} {P : List (List α)} {staged : List α}
    (h : s.StagedAfter B Q P staged) :
    s.getNumCompleteBuffersAvailable = Q.length + P.length := by
  obtain ⟨hi, hc, _⟩ := h
  rw [SingleChannelSampleFifo.getNumCompleteBuffersAvailable, ← Fifo.contents_length _ hi, hc,
    List.length_append, List.length_map]

theorem SingleChannelSampleFifo.StagedAfter.step_write_after {B : Nat} {Q : List (AudioBuffer α)}
    {s : SingleChannelSampleFifo α} {P : List (List α)} {staged : List α}
    (h : s.StagedAfter B Q P staged) (hlt : staged.length < B) (x : α) :
    (s.pushNextSampleIntoFifo x).StagedAfter B Q P (staged ++ [x]) := by
  have hn := h.numSamples_after
  obtain ⟨hi, hc, hP, hidx, rest, hb, hl⟩ := h
  have hne : ¬ s.fifoIndex = s.bufferToFill.getNumSamples := by omega
  have hpub : s.publishIfComplete = (s, none) := by
    simp only [SingleChannelSampleFifo.publishIfComplete, if_neg hne]
  obtain _ | ⟨r, rs⟩ := rest
  · simp at hl; omega
  · refine ⟨?_, ?_, hP, ?_, rs, ?_, ?_⟩
    · simpa only [SingleChannelSampleFifo.pushNextSampleIntoFifo, hpub] using hi
    · simpa only [SingleChannelSampleFifo.pushNextSampleIntoFifo, hpub] using hc
    · simp [SingleChannelSampleFifo.pushNextSampleIntoFifo, hpub, hidx]
    · simp only [SingleChannelSampleFifo.pushNextSampleIntoFifo, hpub, hb, hidx,
        AudioBuffer.setSample]
      simp [set_length_append]
    · simp at hl ⊢; omega

theorem SingleChannelSampleFifo.StagedAfter.step_push {B : Nat} {Q : List (AudioBuffer α)}
    {s : SingleChannelSampleFifo α} {P : List (List α)} {staged : List α}
    (h : s.StagedAfter B Q P staged) (hB : 0 < B) (heq : staged.length = B)
    (hfree : Q.length + P.length + 1 < Capacity) (x : α) :
    (s.pushNextSampleIntoFifo x).StagedAfter B Q (P ++ [staged]) [x] := by
  have hn := h.numSamples_after
  have hav := h.numAvailable_after
  obtain ⟨hi, hc, hP, hidx, rest, hb, hl⟩ := h
  have hrest : rest = [] := by
    apply List.eq_nil_of_length_eq_zero
    simp at hl; omega
  subst hrest
  rw [List.append_nil] at hb
  have he : s.fifoIndex = s.bufferToFill.getNumSamples := by omega
  obtain ⟨h1, h2, h3, _⟩ := s.audioBufferFifo.push_free hi
    (by rw [SingleChannelSampleFifo.getNumCompleteBuffersAvailable] at hav; omega) s.bufferToFill
  have hpub : s.publishIfComplete
      = ({ s with audioBufferFifo := (s.audioBufferFifo.push s.bufferToFill).1, fifoIndex := 0 },
          some true) := by
    simp only [SingleChannelSampleFifo.publishIfComplete, if_pos he, h1]
  obtain _ | ⟨a, as⟩ := staged
  · simp at heq; omega
  · refine ⟨?_, ?_, ?_, ?_, as, ?_, ?_⟩
    · simpa only [SingleChannelSampleFifo.pushNextSampleIntoFifo, hpub] using h3
    · simp only [SingleChannelSampleFifo.pushNextSampleIntoFifo, hpub]
      rw [h2, hc, hb]
      simp
    · intro b hb'
      rcases List.mem_append.1 hb' with hb' | hb'
      · exact hP b hb'
      · rw [List.mem_singleton.1 hb']; exact heq
    · simp [SingleChannelSampleFifo.pushNextSampleIntoFifo, hpub]
    · simp only [SingleChannelSampleFifo.pushNextSampleIntoFifo, hpub, hb,
        AudioBuffer.setSample]
      simp
    · simpa using heq

theorem SingleChannelSampleFifo.StagedAfter.foldl_pushNext {B : Nat} (hB : 0 < B)
    (Q : List (AudioBuffer α)) (xs : List α) :
    ∀ (s : SingleChannelSampleFifo α) (P : List (List α)) (staged : List α),
      s.StagedAfter B Q P staged →
      Q.length * B + (P.flatten ++ staged ++ xs).length ≤ Capacity * B →
      ∃ P' staged',
        (xs.foldl SingleChannelSampleFifo.pushNextSampleIntoFifo s).StagedAfter B Q P' staged' ∧
        P'.flatten ++ staged' = P.flatten ++ staged ++ xs ∧
        (staged ≠ [] ∨ xs ≠ [] → staged' ≠ []) := by
  induction xs with
  | nil =>
    intro s P staged h _
    exact ⟨P, staged, h, by simp, fun h => h.elim id (fun h => absurd rfl h)⟩
  | cons x xs ih =>
    intro s P staged h htot
    have hlenP := length_flatten_of_forall P h.2.2.1
    have hle : staged.length ≤ B := by
      obtain ⟨_, _, _, _, rest, _, hl⟩ := h
      rw [List.length_append] at hl; omega
    rcases Nat.lt_or_ge staged.length B with hlt | hge
    · obtain ⟨P', staged', h1, h2, h3⟩ := ih _ P (staged ++ [x]) (h.step_write_after hlt x)
        (by simpa using htot)
      exact ⟨P', staged', h1, by simpa using h2, fun _ => h3 (Or.inl (by simp))⟩
    · have heq : staged.length = B := by omega
      have hfree : Q.length + P.length + 1 < Capacity := by
        have h5 : (Q.length + P.length + 1) * B < Capacity * B := by
          simp only [List.length_append, List.length_cons, hlenP, heq] at htot
          rw [Nat.add_mul, Nat.add_mul, Nat.one_mul]; omega
        exact Nat.lt_of_mul_lt_mul_right h5
      obtain ⟨P', staged', h1, h2, h3⟩ := ih _ (P ++ [staged]) [x] (h.step_push hB heq hfree x)
        (by simpa using htot)
      exact ⟨P', staged', h1, by simpa using h2, fun _ => h3 (Or.inl (by simp))⟩

theorem SingleChannelSampleFifo.prepare_stagedAfter [Zero α] (s0 : SingleChannelSampleFifo α)
    (B : Nat) (hinv : s0.audioBufferFifo.Inv) :
    (s0.prepare B).StagedAfter B (s0.prepare B).audioBufferFifo.contents [] [] := by
  obtain ⟨c, h1, h2⟩ := s0.prepare_staging B
  refine ⟨Fifo.prepare_inv _ hinv 1 B, by simp, ?_, rfl, c, by simpa using h1, by simpa using h2⟩
  intro b hb
  cases hb

theorem floor_of_blocks (q B t k : Nat) (hB : 0 < B) (h1 : 1 ≤ t) (h2 : t ≤ B)
    (hk : q * B + t = k) : (k - 1) / B = q ∧ (k - 1) % B + 1 = t ∧ (k % B = 0 ↔ t = B) := by
  have e : k - 1 = (t - 1) + q * B := by omega
  have e2 : k = t + q * B := by omega
  refine ⟨?_, ?_, ?_⟩
  · rw [e, Nat.add_mul_div_right _ _ hB, Nat.div_eq_of_lt (by omega)]
    omega
  · rw [e, Nat.add_mul_mod_self_right, Nat.mod_eq_of_lt (by omega)]
    omega
  · rw [e2, Nat.add_mul_mod_self_right]
    rcases Nat.lt_or_ge t B with h | h
    · rw [Nat.mod_eq_of_lt h]
      omega
    · have e3 : t = B := by omega
      rw [e3, Nat.mod_self]
      simp

/-- C13: after `prepare (B)`, `B > 0`, on an accumulator in any prior state with a
well-formed queue (new, or used and prepared again; `prepare` sets the write index to 0
and leaves the number of queued blocks as it was), `update` calls that feed `k ≥ 1`
samples in all, few enough that no push is refused, publish exactly `(k - 1) / B`
blocks: the number available grows by `(k - 1) / B`, the queue is the queue left by
`prepare` followed by the blocks of samples `j * B .. j * B + B - 1` for
`j < (k - 1) / B`, and the write index is `(k - 1) % B + 1`.  A block whose last sample
has just been written (`k` a multiple of `B`) is still in the staging block, and it is
the next call of `pushNextSampleIntoFifo` that pushes it, which it does exactly when `k`
is a multiple of `B`. -/
theorem update_publishes_floor [Zero α] (s0 : SingleChannelSampleFifo α) (B : Nat)
    (hB : 0 < B) (hinv : s0.audioBufferFifo.Inv) (buffers : List (AudioBuffer α))
    (hk : 1 ≤ (channelSamples s0.channelToUse.toNat buffers).length)
    (hcap : s0.getNumCompleteBuffersAvailable * B
      + (channelSamples s0.channelToUse.toNat buffers).length ≤ Capacity * B) :
    (s0.prepare B).fifoIndex = 0 ∧
      (s0.prepare B).getNumCompleteBuffersAvailable = s0.getNumCompleteBuffersAvailable ∧
      ((s0.prepare B).updateAll buffers).getNumCompleteBuffersAvailable
        = s0.getNumCompleteBuffersAvailable
          + ((channelSamples s0.channelToUse.toNat buffers).length - 1) / B ∧
      ((s0.prepare B).updateAll buffers).audioBufferFifo.contents
        = (s0.prepare B).audioBufferFifo.contents
          ++ (List.range (((channelSamples s0.channelToUse.toNat buffers).length - 1) / B)).map
              (fun j => [((channelSamples s0.channelToUse.toNat buffers).drop (j * B)).take B]) ∧
      ((s0.prepare B).updateAll buffers).fifoIndex
        = ((channelSamples s0.channelToUse.toNat buffers).length - 1) % B + 1 ∧
      (((s0.prepare B).updateAll buffers).publishIfComplete.2.isSome = true ↔
        (channelSamples s0.channelToUse.toNat buffers).length % B = 0) := by
  have e : (s0.prepare B).channelToUse = s0.channelToUse := rfl
  have hQ : (s0.prepare B).audioBufferFifo.contents.length
      = s0.getNumCompleteBuffersAvailable :=
    Fifo.contents_length _ (Fifo.prepare_inv _ hinv 1 B)
  have hu := SingleChannelSampleFifo.updateAll_eq_foldl buffers (s0.prepare B)
  rw [e] at hu
  obtain ⟨P, staged, hst, hxs, hne⟩ := SingleChannelSampleFifo.StagedAfter.foldl_pushNext hB
    (s0.prepare B).audioBufferFifo.contents (channelSamples s0.channelToUse.toNat buffers)
    (s0.prepare B) [] [] (s0.prepare_stagedAfter B hinv) (by rw [hQ]; simpa using hcap)
  rw [← hu] at hst
  refine ⟨rfl, rfl, ?_⟩
  generalize (s0.prepare B).updateAll buffers = s at hst
  generalize (s0.prepare B).audioBufferFifo.contents = Q at hst hQ
  generalize channelSamples s0.channelToUse.toNat buffers = xs at hk hcap hxs hne
  simp only [List.flatten_nil, List.nil_append] at hxs
  have hav := hst.numAvailable_after
  have hns := hst.numSamples_after
  have hPl := length_flatten_of_forall P hst.2.2.1
  obtain ⟨hi, hc, hP, hidx, rest, hb, hl⟩ := hst
  have htot : P.length * B + staged.length = xs.length := by
    rw [← hxs, List.length_append, hPl]
  have hsl : staged.length ≤ B := by rw [List.length_append] at hl; omega
  have hx : xs ≠ [] := by
    intro h
    rw [h, List.length_nil] at hk
    omega
  have hs1 : 1 ≤ staged.length := List.length_pos.2 (hne (Or.inr hx))
  obtain ⟨f1, f2, f3⟩ := floor_of_blocks P.length B staged.length xs.length hB hs1 hsl htot
  refine ⟨by rw [hav, f1, hQ], ?_, by rw [hidx, f2], ?_⟩
  · rw [hc, f1, ← hxs]
    conv_lhs => rw [blocks_eq_range_map P hP staged]
    rw [List.map_map]
    rfl
  · rw [f3]
    simp only [SingleChannelSampleFifo.publishIfComplete]
    split
    · simp
      omega
    · simp
      omega

/-! ### Instances of the theorems that carry hypotheses -/

theorem updateCutFilter_active_iff_witness :
    ∃ chain', updateCutFilter
        (⟨⟨5, ()⟩, ⟨6, ()⟩, ⟨7, ()⟩, ⟨8, ()⟩, false, false, false, false⟩ : CutFilter Nat Unit)
        [10, 20] Slope.Slope_24 = some chain' ∧
      (∀ i : Fin 4, chain'.isBypassed i = false ↔ i.val ≤ Slope.Slope_24.toNat) ∧
      chain'.numActive = Slope.Slope_24.toNat + 1 ∧
      chain'.numBypassed = 3 - Slope.Slope_24.toNat :=
  updateCutFilter_active_iff _ [10, 20] Slope.Slope_24 (by decide)

theorem update_publishes_all_but_last_block_witness :
    (((SingleChannelSampleFifo.init Channel.Left : SingleChannelSampleFifo Nat).prepare 2).updateAll
        [[[0, 0, 0], [1, 2, 3]], [[0, 0, 0], [4, 5, 6]]]).getNumCompleteBuffersAvailable = 3 - 1 ∧
      ((((SingleChannelSampleFifo.init Channel.Left : SingleChannelSampleFifo Nat).prepare 2).updateAll
        [[[0, 0, 0], [1, 2, 3]], [[0, 0, 0], [4, 5, 6]]]).drain [] Capacity).2
        = (List.range (3 - 1)).map (fun j =>
            [((channelSamples Channel.Left.toNat [[[0, 0, 0], [1, 2, 3]], [[0, 0, 0], [4, 5, 6]]]).drop (j * 2)).take 2]) ∧
      (0 < 3 →
        (((SingleChannelSampleFifo.init Channel.Left : SingleChannelSampleFifo Nat).prepare 2).updateAll
          [[[0, 0, 0], [1, 2, 3]], [[0, 0, 0], [4, 5, 6]]]).bufferToFill
          = [(channelSamples Channel.Left.toNat [[[0, 0, 0], [1, 2, 3]], [[0, 0, 0], [4, 5, 6]]]).drop ((3 - 1) * 2)] ∧
        (((SingleChannelSampleFifo.init Channel.Left : SingleChannelSampleFifo Nat).prepare 2).updateAll
          [[[0, 0, 0], [1, 2, 3]], [[0, 0, 0], [4, 5, 6]]]).fifoIndex = 2) :=
  update_publishes_all_but_last_block Channel.Left 2 3 (by decide) (by decide)
    [[[0, 0, 0], [1, 2, 3]], [[0, 0, 0], [4, 5, 6]]] [] (by decide)

theorem pushNextSampleIntoFifo_full_drops_newest_witness :
    (((SingleChannelSampleFifo.init Channel.Right : SingleChannelSampleFifo Nat).prepare 1).updateAll
        [[List.range 30]]).getNumCompleteBuffersAvailable + 1 = Capacity ∧
      ((((SingleChannelSampleFifo.init Channel.Right : SingleChannelSampleFifo Nat).prepare 1).updateAll
        [[List.range 30]]).pushNextSampleIntoFifo 30).audioBufferFifo
        = (((SingleChannelSampleFifo.init Channel.Right : SingleChannelSampleFifo Nat).prepare 1).updateAll
            [[List.range 30]]).audioBufferFifo ∧
      ((((SingleChannelSampleFifo.init Channel.Right : SingleChannelSampleFifo Nat).prepare 1).updateAll
        [[List.range 30]]).pushNextSampleIntoFifo 30).fifoIndex = 1 :=
  have h := pushNextSampleIntoFifo_full_drops_newest
    (((SingleChannelSampleFifo.init Channel.Right : SingleChannelSampleFifo Nat).prepare 1).updateAll
      [[List.range 30]]) 30
    (show _ ∧ _ ∧ _ ∧ _ from ⟨by decide, by decide, by decide, by decide⟩)
    (by decide) (by decide)
  ⟨by decide, h.2.2.1, h.2.2.2.2.2.2⟩

theorem updateFilters_chains_agree_witness :
    ((getChainSettings exampleProcessor.apvts).lowCutSlope.toNat
        < (makeLowCutFilter exampleDesign (getChainSettings exampleProcessor.apvts)
            exampleProcessor.sampleRate).length ∧
      (getChainSettings exampleProcessor.apvts).highCutSlope.toNat
        < (makeHighCutFilter exampleDesign (getChainSettings exampleProcessor.apvts)
            exampleProcessor.sampleRate).length) ∧
      ∃ p', exampleProcessor.updateFilters exampleDesign = some p' ∧
        (∀ position, p'.leftChain.isBypassed position = p'.rightChain.isBypassed position) ∧
        (∀ i, p'.leftChain.lowCut.isBypassed i = p'.rightChain.lowCut.isBypassed i) ∧
        (∀ i, p'.leftChain.highCut.isBypassed i = p'.rightChain.highCut.isBypassed i) :=
  ⟨⟨by decide, by decide⟩,
    let ⟨p', h1, h2, h3, h4, _⟩ :=
      updateFilters_chains_agree exampleDesign exampleProcessor (by decide) (by decide)
    ⟨p', h1, h2, h3, h4⟩⟩

theorem updateFilters_stage_flags_witness :
    ((getChainSettings exampleProcessor.apvts).lowCutSlope.toNat
        < (makeLowCutFilter exampleDesign (getChainSettings exampleProcessor.apvts)
            exampleProcessor.sampleRate).length ∧
      (getChainSettings exampleProcessor.apvts).highCutSlope.toNat
        < (makeHighCutFilter exampleDesign (getChainSettings exampleProcessor.apvts)
            exampleProcessor.sampleRate).length) ∧
      ∃ p', exampleProcessor.updateFilters exampleDesign = some p' ∧
        p'.leftChain.isBypassed ChainPositions.LowCut = false ∧
        p'.leftChain.isBypassed ChainPositions.Peak = true ∧
        p'.leftChain.isBypassed ChainPositions.HighCut = false ∧
        p'.rightChain.isBypassed ChainPositions.LowCut = false ∧
        p'.rightChain.isBypassed ChainPositions.Peak = true ∧
        p'.rightChain.isBypassed ChainPositions.HighCut = false :=
  ⟨⟨by decide, by decide⟩,
    let ⟨p', h1, h2, h3, h4, h5, h6, h7⟩ :=
      updateFilters_stage_flags exampleDesign exampleProcessor (by decide) (by decide)
    ⟨p', h1, h2.trans (by decide), h3.trans (by decide), h4.trans (by decide),
      h5.trans (by decide), h6.trans (by decide), h7.trans (by decide)⟩⟩

theorem stage_bypass_dominance_witness :
    (exampleBypassedChain.isBypassed ChainPositions.LowCut = true ∧
      exampleBypassedChain.isBypassed ChainPositions.Peak = true ∧
      exampleBypassedChain.isBypassed ChainPositions.HighCut = true ∧
      exampleBypassedChain.lowCut.numActive = 4 ∧
      exampleBypassedChain.highCut.numActive = 4) ∧
      exampleBypassedChain.processStage exampleStep ChainPositions.LowCut 7
        = (exampleBypassedChain, 7) ∧
      exampleBypassedChain.process exampleStep [1, 2, 3] = (exampleBypassedChain, [1, 2, 3]) :=
  ⟨by decide,
    (stage_bypass_dominance exampleStep exampleBypassedChain).1 ChainPositions.LowCut 7 rfl,
    ((stage_bypass_dominance exampleStep exampleBypassedChain).2 rfl rfl rfl).2 [1, 2, 3]⟩

theorem cut_design_order_and_stored_coefficients_witness :
    (∀ (f r : ℚ) (n : Nat),
        (exampleSectionDesign.designIIRHighpassHighOrderButterworthMethod f r n).length = n / 2) ∧
      (∀ (f r : ℚ) (n : Nat),
        (exampleSectionDesign.designIIRLowpassHighOrderButterworthMethod f r n).length = n / 2) ∧
      (makeLowCutFilter exampleSectionDesign exampleSteepSettings 44100).length
        = exampleSteepSettings.lowCutSlope.toNat + 1 ∧
      (∃ chain', updateCutFilter exampleChain.lowCut
          (makeLowCutFilter exampleSectionDesign exampleSteepSettings 44100)
          exampleSteepSettings.lowCutSlope = some chain' ∧
        (∀ i : Fin 4, i.val ≤ exampleSteepSettings.lowCutSlope.toNat →
          i.val < (makeLowCutFilter exampleSectionDesign exampleSteepSettings 44100).length ∧
          some (chain'.get i).coefficients
            = (makeLowCutFilter exampleSectionDesign exampleSteepSettings 44100)[i.val]?) ∧
        (∀ i : Fin 4, exampleSteepSettings.lowCutSlope.toNat < i.val →
          (chain'.get i).coefficients = (exampleChain.lowCut.get i).coefficients)) :=
  have h := cut_design_order_and_stored_coefficients exampleSectionDesign exampleSteepSettings
    44100 exampleChain.lowCut
    (fun _ _ _ => by simp [exampleSectionDesign])
    (fun _ _ _ => by simp [exampleSectionDesign])
  ⟨fun _ _ _ => by simp [exampleSectionDesign], fun _ _ _ => by simp [exampleSectionDesign],
    h.1.2.2.1, h.1.2.2.2⟩

theorem update_publishes_floor_witness :
    ((((SingleChannelSampleFifo.init Channel.Right : SingleChannelSampleFifo Nat).prepare 4).updateAll
        [[List.range 11]]).getNumCompleteBuffersAvailable = 2 ∧
      (((SingleChannelSampleFifo.init Channel.Right : SingleChannelSampleFifo Nat).prepare 4).updateAll
        [[List.range 11]]).fifoIndex = 3) ∧
      ((((SingleChannelSampleFifo.init Channel.Right : SingleChannelSampleFifo Nat).prepare 4).updateAll
        [[List.range 11]]).prepare 2).fifoIndex = 0 ∧
      (((((SingleChannelSampleFifo.init Channel.Right : SingleChannelSampleFifo Nat).prepare 4).updateAll
        [[List.range 11]]).prepare 2).updateAll
          [[[1, 2, 3], [0, 0, 0]], [[4, 5], [0, 0]]]).getNumCompleteBuffersAvailable
        = 2 + (5 - 1) / 2 ∧
      (((((SingleChannelSampleFifo.init Channel.Right : SingleChannelSampleFifo Nat).prepare 4).updateAll
        [[List.range 11]]).prepare 2).updateAll
          [[[1, 2, 3], [0, 0, 0]], [[4, 5], [0, 0]]]).audioBufferFifo.contents
        = [[[0, 0]], [[0, 0]], [[1, 2]], [[3, 4]]] ∧
      (((((SingleChannelSampleFifo.init Channel.Right : SingleChannelSampleFifo Nat).prepare 4).updateAll
        [[List.range 11]]).prepare 2).updateAll
          [[[1, 2, 3], [0, 0, 0]], [[4, 5], [0, 0]]]).fifoIndex = (5 - 1) % 2 + 1 :=
  have h := update_publishes_floor
    (((SingleChannelSampleFifo.init Channel.Right : SingleChannelSampleFifo Nat).prepare 4).updateAll
      [[List.range 11]]) 2 (by decide)
    (show _ ∧ _ ∧ _ ∧ _ from ⟨by decide, by decide, by decide, by decide⟩)
    ([[[1, 2, 3], [0, 0, 0]], [[4, 5], [0, 0]]] : List (AudioBuffer Nat)) (by decide) (by decide)
  ⟨by decide, h.1, h.2.2.1, h.2.2.2.1.trans (by decide), h.2.2.2.2.1⟩

theorem fifoIndex_within_bounds_witness :
    (((SingleChannelSampleFifo.init Channel.Right : SingleChannelSampleFifo Nat).prepare 4).updateAll
        [[[1, 2, 3]]]).fifoIndex = 3 ∧
      (((((SingleChannelSampleFifo.init Channel.Right : SingleChannelSampleFifo Nat).prepare 4).updateAll
        [[[1, 2, 3]]]).prepare 1).updateAll [[List.range 40]]).publishIfComplete.2 = some false ∧
      ((((SingleChannelSampleFifo.init Channel.Right : SingleChannelSampleFifo Nat).prepare 4).updateAll
        [[[1, 2, 3]]]).prepare 1).fifoIndex = 0 ∧
      (((((SingleChannelSampleFifo.init Channel.Right : SingleChannelSampleFifo Nat).prepare 4).updateAll
        [[[1, 2, 3]]]).prepare 1).updateAll [[List.range 40]]).fifoIndex ≤ 1 ∧
      (((((SingleChannelSampleFifo.init Channel.Right : SingleChannelSampleFifo Nat).prepare 4).updateAll
        [[[1, 2, 3]]]).prepare 1).updateAll
          [[List.range 40]]).publishIfComplete.1.fifoIndex < 1 ∧
      1 ≤ ((((((SingleChannelSampleFifo.init Channel.Right : SingleChannelSampleFifo Nat).prepare
        4).updateAll [[[1, 2, 3]]]).prepare 1).updateAll
          [[List.range 40]]).pushNextSampleIntoFifo 40).fifoIndex ∧
      ((((((SingleChannelSampleFifo.init Channel.Right : SingleChannelSampleFifo Nat).prepare
        4).updateAll [[[1, 2, 3]]]).prepare 1).updateAll
          [[List.range 40]]).pushNextSampleIntoFifo 40).fifoIndex ≤ 1 :=
  have h := fifoIndex_within_bounds
    (((SingleChannelSampleFifo.init Channel.Right : SingleChannelSampleFifo Nat).prepare 4).updateAll
      [[[1, 2, 3]]]) 1 (by decide) [[List.range 40]] (40 : Nat)
  ⟨by decide, by decide, h.1, h.2.1, h.2.2.2.2.1, h.2.2.2.2.2.2.1, h.2.2.2.2.2.2.2⟩

end SimpleEQ
